import Mathlib

/-!
# Go-Runescape-Api: the Grand Exchange client

A shallow embedding of `runescape/grandexchange.go` and `runescape/runescape.go`:
the validation, request construction and response decoding of
`Client.ListGrandExchangeItems`, and the custom JSON decoding of `TrendPrice`.

The functions of the repository are transcribed statement by statement.  The
library functions they call (`net/url`, `path`, `strconv`, `unicode/utf8`,
`encoding/json`) are modelled next to them, each under the name it has in Go.
-/

namespace Runescape

/-! ## Go strings and errors -/

/-- A Go `string`: an immutable sequence of bytes, not necessarily valid UTF-8. -/
abbrev GoString := List UInt8

/-- The UTF-8 encoding of a rune, as `utf8.AppendRune` writes it.  A `Char` is a
Unicode scalar value, which is exactly the set of runes Go encodes as themselves. -/
def EncodeRune (c : Char) : List UInt8 :=
  let v := c.toNat
  if v < 0x80 then [UInt8.ofNat v]
  else if v < 0x800 then [UInt8.ofNat (0xC0 + v / 64), UInt8.ofNat (0x80 + v % 64)]
  else if v < 0x10000 then
    [UInt8.ofNat (0xE0 + v / 4096), UInt8.ofNat (0x80 + v / 64 % 64), UInt8.ofNat (0x80 + v % 64)]
  else
    [UInt8.ofNat (0xF0 + v / 262144), UInt8.ofNat (0x80 + v / 4096 % 64),
     UInt8.ofNat (0x80 + v / 64 % 64), UInt8.ofNat (0x80 + v % 64)]

/-- The Go string holding the UTF-8 encoding of a text; used for string literals
of the source and for strings produced from runes. -/
def go (s : String) : GoString := s.data.flatMap EncodeRune

/-- The kinds of JSON value, as `encoding/json` names them in its type errors. -/
inductive JSONKind where
  | null | bool | number | string | array | object
deriving DecidableEq, Repr

/-- The Go `error` values that reach the caller. -/
inductive GoError where
  /-- The value of `errors.New(text)`. -/
  | errorString (text : GoString)
  /-- A `*json.UnmarshalTypeError`: a JSON value of the given kind does not fit
  the Go value it is decoded into. -/
  | unmarshalType (value : JSONKind)
  /-- A `*json.SyntaxError`: the text is not well-formed JSON. -/
  | malformed (msg : String)
  /-- An error of the transport or of reading the body. -/
  | network (msg : String)
deriving DecidableEq, Repr

deriving instance DecidableEq for Except

/-- The result of a call that returns `(*T, error)` or panics. -/
inductive Outcome (α : Type) where
  /-- A run-time panic: the call does not return. -/
  | panic (msg : String)
  /-- The call returns `(nil, err)`. -/
  | fail (err : GoError)
  /-- The call returns `(&a, nil)`. -/
  | ok (a : α)
deriving DecidableEq, Repr

/-! ## strconv -/

/-- The ASCII byte of a decimal digit character. -/
def digitByte (c : Char) : UInt8 := UInt8.ofNat c.toNat

/-- Model of `strconv.FormatInt(i, 10)`: the decimal form, with a leading `-` for
negative numbers. -/
def FormatInt (i : Int) : GoString :=
  match i with
  | Int.ofNat n => (Nat.toDigits 10 n).map digitByte
  | Int.negSucc n => 45 :: (Nat.toDigits 10 (n + 1)).map digitByte

/-- Model of `strconv.Itoa`, which is `FormatInt(int64(i), 10)`. -/
def Itoa (i : Int) : GoString := FormatInt i

/-! ## path -/

/-- The segments of a path between its slashes. -/
def splitSlash : GoString → List GoString
  | [] => [[]]
  | c :: cs =>
    match splitSlash cs with
    | [] => [[c]]
    | seg :: segs => if c == 47 then [] :: seg :: segs else (c :: seg) :: segs

/-- One step of `path.Clean` over the segments of a path; `out` holds the
segments kept so far, the last one first.  Empty and `.` segments are dropped, a
`..` segment removes the segment before it, is dropped at the root of a rooted
path, and is kept at the start of a relative one. -/
def cleanStep (rooted : Bool) (out : List GoString) (seg : GoString) : List GoString :=
  if seg == [] || seg == go "." then out
  else if seg == go ".." then
    match out with
    | last :: before => if last == go ".." then seg :: out else before
    | [] => if rooted then [] else [seg]
  else seg :: out

/-- Model of `path.Clean`: the shortest path equivalent to `path` by purely
lexical processing. -/
def Clean (path : GoString) : GoString :=
  if path == [] then go "."
  else
    let rooted := path.head? == some 47
    let out := (splitSlash path).foldl (cleanStep rooted) []
    let body := (go "/").intercalate out.reverse
    if rooted then 47 :: body
    else if body == [] then go "."
    else body

/-- Model of `path.Join`: the elements joined by slashes, empty leading elements
ignored, and the result cleaned; the empty string when every element is empty. -/
def Join (elem : List GoString) : GoString :=
  if (elem.map List.length).sum == 0 then []
  else
    Clean (elem.foldl
      (fun buf e =>
        if buf.length > 0 || e != [] then (if buf.length > 0 then buf ++ [47] else buf) ++ e
        else buf)
      [])

/-! ## net/url -/

/-- The escaping modes of `net/url` that rendering a URL reaches. -/
inductive Encoding where
  | encodePath | encodeHost | encodeUserPassword | encodeQueryComponent | encodeFragment
deriving DecidableEq, Repr

/-- ASCII letters and digits. -/
def isAlnum (c : UInt8) : Bool :=
  (97 ≤ c && c ≤ 122) || (65 ≤ c && c ≤ 90) || (48 ≤ c && c ≤ 57)

/-- Model of `url.shouldEscape`. -/
def shouldEscape (c : UInt8) (mode : Encoding) : Bool :=
  if isAlnum c then false
  else if mode == .encodeHost && ((go "!$&()*+,;=:[]<>\"").contains c || c == 39) then false
  else if (go "-_.~").contains c then false
  else if (go "$&+,/:;=?@").contains c then
    match mode with
    | .encodePath => c == 63
    | .encodeUserPassword => c == 64 || c == 47 || c == 63 || c == 58
    | .encodeQueryComponent => true
    | .encodeFragment => false
    | .encodeHost => true
  else if mode == .encodeFragment && (go "!()*").contains c then false
  else true

/-- The upper-case hexadecimal digit of a nibble. -/
def upperhex (n : Nat) : UInt8 := if n < 10 then UInt8.ofNat (48 + n) else UInt8.ofNat (55 + n)

/-- Model of `url.escape`: a space becomes `+` in a query component, every other
byte that `shouldEscape` names becomes `%XX`. -/
def escape (s : GoString) (mode : Encoding) : GoString :=
  s.flatMap fun c =>
    if c == 32 && mode == .encodeQueryComponent then [43]
    else if shouldEscape c mode then [37, upperhex (c.toNat / 16), upperhex (c.toNat % 16)]
    else [c]

/-- Model of `url.QueryEscape`. -/
def QueryEscape (s : GoString) : GoString := escape s .encodeQueryComponent

/-- Hexadecimal digits. -/
def ishex (c : UInt8) : Bool :=
  (48 ≤ c && c ≤ 57) || (97 ≤ c && c ≤ 102) || (65 ≤ c && c ≤ 70)

/-- The value of a hexadecimal digit. -/
def unhex (c : UInt8) : Nat :=
  if 48 ≤ c && c ≤ 57 then c.toNat - 48
  else if 97 ≤ c && c ≤ 102 then c.toNat - 97 + 10
  else if 65 ≤ c && c ≤ 70 then c.toNat - 65 + 10
  else 0

/-- Model of `url.unescape`; `none` is its `EscapeError` or `InvalidHostError`. -/
def unescape : GoString → Encoding → Option GoString
  | [], _ => some []
  | c :: rest, mode =>
    if c == 37 then
      match rest with
      | h1 :: h2 :: rest2 =>
        if !(ishex h1 && ishex h2) then none
        else if mode == .encodeHost && unhex h1 < 8 && [h1, h2] != go "25" then none
        else (unescape rest2 mode).map (UInt8.ofNat (unhex h1 * 16 + unhex h2) :: ·)
      | _ => none
    else if c == 43 then
      (unescape rest mode).map ((if mode == .encodeQueryComponent then 32 else 43) :: ·)
    else if mode == .encodeHost && c < 128 && shouldEscape c .encodeHost then none
    else (unescape rest mode).map (c :: ·)

/-- Model of `url.validEncoded`. -/
def validEncoded (s : GoString) (mode : Encoding) : Bool :=
  s.all fun c =>
    (go "!$&()*+,;=:@[]%").contains c || c == 39 || !shouldEscape c mode

/-- A `url.Userinfo`: a user name and, when `passwordSet`, a password. -/
structure Userinfo where
  username : GoString
  password : GoString
  passwordSet : Bool
deriving DecidableEq, Repr

/-- Model of `(*Userinfo).String` for a non-nil receiver. -/
def Userinfo.String (u : Userinfo) : GoString :=
  let s := escape u.username .encodeUserPassword
  if u.passwordSet then s ++ go ":" ++ escape u.password .encodeUserPassword else s

/-- A `url.URL`, with every field of the Go struct; `User` is a pointer, `none`
when nil.  A field that is not given is the zero value. -/
structure URL where
  Scheme : GoString := []
  Opaque : GoString := []
  User : Option Userinfo := none
  Host : GoString := []
  Path : GoString := []
  RawPath : GoString := []
  OmitHost : Bool := false
  ForceQuery : Bool := false
  RawQuery : GoString := []
  Fragment : GoString := []
  RawFragment : GoString := []
deriving DecidableEq, Repr

/-- Model of `(*URL).EscapedPath`. -/
def URL.EscapedPath (u : URL) : GoString :=
  if u.RawPath != [] && validEncoded u.RawPath .encodePath
      && unescape u.RawPath .encodePath == some u.Path then u.RawPath
  else if u.Path == go "*" then go "*"
  else escape u.Path .encodePath

/-- Model of `(*URL).EscapedFragment`. -/
def URL.EscapedFragment (u : URL) : GoString :=
  if u.RawFragment != [] && validEncoded u.RawFragment .encodeFragment
      && unescape u.RawFragment .encodeFragment == some u.Fragment then u.RawFragment
  else escape u.Fragment .encodeFragment

/-- Model of `(*URL).setPath`; on an unescaping error the URL is left as it is. -/
def URL.setPath (u : URL) (p : GoString) : URL :=
  match unescape p .encodePath with
  | none => u
  | some path =>
    if p == escape path .encodePath then { u with Path := path, RawPath := [] }
    else { u with Path := path, RawPath := p }

/-- Model of `(*URL).JoinPath` (Go 1.20 and later): the escaped path and the
elements are joined and cleaned, a relative base stays relative, and a trailing
slash of the last element is kept. -/
def URL.JoinPath (u : URL) (elem : List GoString) : URL :=
  let e0 := u.EscapedPath
  let rel := e0.head? != some 47
  let elems := (if rel then 47 :: e0 else e0) :: elem
  let p := if rel then (Join elems).drop 1 else Join elems
  let p := if elems.getLast?.bind List.getLast? == some 47 && p.getLast? != some 47
    then p ++ [47] else p
  u.setPath p

/-- Model of `(*URL).String`: the scheme, then the opaque part or else the
authority and the escaped path, then the query and the fragment. -/
def URL.String (u : URL) : GoString :=
  let buf : GoString := if u.Scheme != [] then u.Scheme ++ go ":" else []
  let buf :=
    if u.Opaque != [] then buf ++ u.Opaque
    else
      let buf :=
        if u.Scheme != [] || u.Host != [] || u.User.isSome then
          if u.OmitHost && u.Host == [] && u.User.isNone then buf
          else
            let buf :=
              if u.Host != [] || u.Path != [] || u.User.isSome then buf ++ go "//" else buf
            let buf :=
              match u.User with
              | some ui => buf ++ ui.String ++ go "@"
              | none => buf
            if u.Host != [] then buf ++ escape u.Host .encodeHost else buf
        else buf
      let path := u.EscapedPath
      let buf :=
        if path != [] && path.head? != some 47 && u.Host != [] then buf ++ go "/" else buf
      let buf :=
        if buf.length == 0 && (path.takeWhile (· != 47)).contains 58 then buf ++ go "./"
        else buf
      buf ++ path
  let buf := if u.ForceQuery || u.RawQuery != [] then buf ++ go "?" ++ u.RawQuery else buf
  if u.Fragment != [] then buf ++ go "#" ++ u.EscapedFragment else buf

/-- Bytewise lexicographic order of Go strings, the order `slices.Sort` uses. -/
def strLess : GoString → GoString → Bool
  | [], [] => false
  | [], _ :: _ => true
  | _ :: _, [] => false
  | a :: as, b :: bs => a < b || (a == b && strLess as bs)

/-- A `url.Values`: a map from keys to lists of values, held as its entries. -/
structure Values where
  entries : List (GoString × List GoString)
deriving DecidableEq, Repr

/-- Model of `Values.Set`: the key's values are replaced by the single value. -/
def Values.Set (v : Values) (key value : GoString) : Values :=
  if v.entries.any (fun kv => kv.1 == key) then
    ⟨v.entries.map (fun kv => if kv.1 == key then (key, [value]) else kv)⟩
  else ⟨v.entries ++ [(key, [value])]⟩

/-- Insertion of an entry into a list of entries sorted by key. -/
def insertSorted (kv : GoString × List GoString) :
    List (GoString × List GoString) → List (GoString × List GoString)
  | [] => [kv]
  | x :: xs => if strLess kv.1 x.1 then kv :: x :: xs else x :: insertSorted kv xs

/-- The entries of a map in the order of their keys. -/
def sortedByKey (v : Values) : List (GoString × List GoString) :=
  v.entries.foldr insertSorted []

/-- Model of `Values.Encode`: the pairs `key=value`, both escaped, sorted by
key and joined by `&`. -/
def Values.Encode (v : Values) : GoString :=
  (go "&").intercalate
    ((sortedByKey v).flatMap fun kv =>
      kv.2.map fun value => QueryEscape kv.1 ++ go "=" ++ QueryEscape value)

/-! ## unicode/utf8 -/

/-- The rune `utf8.RuneError`, U+FFFD. -/
def RuneError : Char := Char.ofNat 0xFFFD

/-- The width of the encoding that starts with the lead byte `s0`, for the lead
bytes 0xC2 to 0xF4 (first column of the table `first` of `unicode/utf8`). -/
def runeWidth (s0 : Nat) : Nat := if s0 < 0xE0 then 2 else if s0 < 0xF0 then 3 else 4

/-- The least second byte accepted after the lead byte `s0` (table
`acceptRanges` of `unicode/utf8`). -/
def acceptLo (s0 : Nat) : Nat := if s0 = 0xE0 then 0xA0 else if s0 = 0xF0 then 0x90 else 0x80

/-- The greatest second byte accepted after the lead byte `s0` (table
`acceptRanges` of `unicode/utf8`). -/
def acceptHi (s0 : Nat) : Nat := if s0 = 0xED then 0x9F else if s0 = 0xF4 then 0x8F else 0xBF

/-- Model of `utf8.DecodeRuneInString`: the first rune of `s` and its width in
bytes; `(RuneError, 1)` for a byte that starts no well-formed encoding and
`(RuneError, 0)` for the empty string. -/
def DecodeRune (s : GoString) : Char × Nat :=
  match s with
  | [] => (RuneError, 0)
  | b0 :: rest =>
    let s0 := b0.toNat
    if s0 < 0x80 then (Char.ofNat s0, 1)
    else if s0 < 0xC2 ∨ 0xF4 < s0 then (RuneError, 1)
    else
      let sz := runeWidth s0
      if s.length < sz then (RuneError, 1)
      else
        match rest with
        | [] => (RuneError, 1)
        | b1 :: rest1 =>
          let s1 := b1.toNat
          if s1 < acceptLo s0 ∨ acceptHi s0 < s1 then (RuneError, 1)
          else if sz ≤ 2 then (Char.ofNat (s0 % 32 * 64 + s1 % 64), 2)
          else
            match rest1 with
            | [] => (RuneError, 1)
            | b2 :: rest2 =>
              let s2 := b2.toNat
              if s2 < 0x80 ∨ 0xBF < s2 then (RuneError, 1)
              else if sz ≤ 3 then (Char.ofNat (s0 % 16 * 4096 + s1 % 64 * 64 + s2 % 64), 3)
              else
                match rest2 with
                | [] => (RuneError, 1)
                | b3 :: _ =>
                  let s3 := b3.toNat
                  if s3 < 0x80 ∨ 0xBF < s3 then (RuneError, 1)
                  else
                    (Char.ofNat (s0 % 8 * 262144 + s1 % 64 * 4096 + s2 % 64 * 64 + s3 % 64), 4)

/-- The runes of a Go string as a `for range` loop or the JSON encoder reads
them: every byte that starts no well-formed encoding yields one `RuneError`.
The fuel bounds the number of runes; the length of the string is enough. -/
def runesFuel : Nat → GoString → List Char
  | 0, _ => []
  | _, [] => []
  | fuel + 1, s =>
    let d := DecodeRune s
    d.1 :: runesFuel fuel (s.drop d.2)

/-- The runes of a Go string, invalid bytes replaced by `RuneError`. -/
def runes (s : GoString) : List Char := runesFuel s.length s

/-- Model of `utf8.ValidString`, with fuel. -/
def validFuel : Nat → GoString → Bool
  | 0, s => s == []
  | _, [] => true
  | fuel + 1, s =>
    let d := DecodeRune s
    if d.2 == 1 && d.1 == RuneError then false else validFuel fuel (s.drop d.2)

/-- Model of `utf8.ValidString`: the string is a sequence of well-formed
encodings of runes. -/
def ValidString (s : GoString) : Bool := validFuel s.length s

/-! ## JSON values -/

/-- A JSON number literal: its sign, the digits of its integer and fraction
parts read as one natural number, the number of fraction digits (zero when the
literal has no fraction part), and the exponent part when there is one.  It
denotes `(-1)^neg * mant * 10^(exp - fracLen)`. -/
structure JNumber where
  neg : Bool
  mant : Nat
  fracLen : Nat
  exp : Option Int
deriving DecidableEq, Repr

/-- The literal the JSON encoder writes for a Go integer. -/
def JNumber.ofInt (i : Int) : JNumber := ⟨decide (i < 0), i.natAbs, 0, none⟩

mutual
/-- A JSON value, as `encoding/json` reads a well-formed text: strings are
sequences of runes (escapes resolved, ill-formed bytes already replaced), and
an object keeps its members in the order of the text, duplicates included. -/
inductive JSON where
  | null
  | bool (b : Bool)
  | num (n : JNumber)
  | str (s : String)
  | arr (xs : JSONList)
  | obj (ms : JSONMembers)
/-- The elements of a JSON array. -/
inductive JSONList where
  | nil
  | cons (x : JSON) (xs : JSONList)
/-- The members of a JSON object. -/
inductive JSONMembers where
  | nil
  | cons (key : String) (value : JSON) (ms : JSONMembers)
end

/-- The kind of a JSON value. -/
def JSON.kind : JSON → JSONKind
  | .null => .null
  | .bool _ => .bool
  | .num _ => .number
  | .str _ => .string
  | .arr _ => .array
  | .obj _ => .object

/-- The array with the given elements. -/
def JSONList.ofList : List JSON → JSONList
  | [] => .nil
  | x :: xs => .cons x (JSONList.ofList xs)

/-- The object members with the given names and values. -/
def JSONMembers.ofList : List (String × JSON) → JSONMembers
  | [] => .nil
  | kv :: ms => .cons kv.1 kv.2 (JSONMembers.ofList ms)

/-! ## strconv: numbers -/

/-- A finite `float64` value, `(-1)^neg * m * 2^e`. -/
structure Float64 where
  neg : Bool
  m : Nat
  e : Int
deriving DecidableEq, Repr

/-- The number of halvings that bring `n` below 2, at most `fuel` of them. -/
def log2Fuel : Nat → Nat → Nat
  | 0, _ => 0
  | fuel + 1, n => if 2 ≤ n then log2Fuel fuel (n / 2) + 1 else 0

/-- The integer part of the binary logarithm of `n`; zero for `n = 0`. -/
def ilog2 (n : Nat) : Nat := log2Fuel n n

/-- The integer `k` with `2^k ≤ n / d < 2^(k+1)`, for positive `n` and `d`. -/
def ilog2Ratio (n d : Nat) : Int :=
  let k : Int := (ilog2 n : Int) - (ilog2 d : Int)
  if d * 2 ^ k.toNat ≤ n * 2 ^ (-k).toNat then k else k - 1

/-- The integer nearest to `n / d`, ties to the even one. -/
def roundHalfEven (n d : Nat) : Nat :=
  let q := n / d
  let r := n % d
  if 2 * r < d then q
  else if d < 2 * r then q + 1
  else if q % 2 == 0 then q
  else q + 1

/-- The `float64` nearest to the positive or zero ratio `n / d`, ties to even,
with a 53-bit significand and exponents down to the subnormal range; `none`
when the ratio rounds to infinity. -/
def roundFloat64 (neg : Bool) (n d : Nat) : Option Float64 :=
  if n == 0 then some ⟨neg, 0, 0⟩
  else
    let e := max (ilog2Ratio n d - 52) (-1074)
    let m := roundHalfEven (n * 2 ^ (-e).toNat) (d * 2 ^ e.toNat)
    let e := if m == 2 ^ 53 then e + 1 else e
    let m := if m == 2 ^ 53 then 2 ^ 52 else m
    if 971 < e then none else some ⟨neg, m, e⟩

/-- Model of `strconv.ParseFloat(s, 64)` on a JSON number literal: the nearest
`float64` to the value of the literal; `none` is the range error of a value
that rounds to infinity. -/
def ParseFloat (x : JNumber) : Option Float64 :=
  let ex : Int := x.exp.getD 0 - (x.fracLen : Int)
  roundFloat64 x.neg (x.mant * 10 ^ ex.toNat) (10 ^ (-ex).toNat)

/-- Model of `strconv.ParseInt(s, 10, 64)` on a JSON number literal: only a
literal without fraction and exponent part is an integer, and it has to fit
64 bits. -/
def ParseInt (x : JNumber) : Option Int :=
  if x.fracLen == 0 && x.exp == none then
    let i : Int := if x.neg then -(x.mant : Int) else (x.mant : Int)
    if -2 ^ 63 ≤ i ∧ i < 2 ^ 63 then some i else none
  else none

/-- The value of a `float64` with its fraction discarded. -/
def Float64.trunc (f : Float64) : Int :=
  let a : Nat := if 0 ≤ f.e then f.m * 2 ^ f.e.toNat else f.m / 2 ^ (-f.e).toNat
  if f.neg then -(a : Int) else (a : Int)

/-- The conversion `int(f)` of a finite `float64` on a 64-bit platform:
truncation towards zero.  When the truncated value does not fit an `int` Go
leaves the result to the implementation; amd64 yields the least `int`. -/
def Float64.toInt (f : Float64) : Int :=
  let t := f.trunc
  if -2 ^ 63 ≤ t ∧ t < 2 ^ 63 then t else -2 ^ 63

/-! ## encoding/json: decoding -/

/-- A Go `interface{}` value as `encoding/json` stores it: `nil`, `bool`,
`float64`, `string`, `[]interface{}` or `map[string]interface{}`.  The contents
of a slice or map are left out: nothing in the client inspects them. -/
inductive GoAny where
  | nil
  | bool (b : Bool)
  | float64 (f : Float64)
  | string (s : GoString)
  | slice
  | map
deriving DecidableEq, Repr

/-- Case folding of a rune as `encoding/json` applies it to member names; exact
on the runes that fold to an ASCII letter (the letters themselves, the long s
and the Kelvin sign). -/
def foldRune (c : Char) : Char :=
  if 'a' ≤ c ∧ c ≤ 'z' then Char.ofNat (c.toNat - 32)
  else if c = Char.ofNat 0x17F then 'S'
  else if c = Char.ofNat 0x212A then 'K'
  else c

/-- A member name selects a struct field when it is the field's JSON name,
exactly or up to case folding. -/
def keyMatches (key name : String) : Bool :=
  key == name || key.data.map foldRune == name.data.map foldRune

/-- The decoder keeps the first error it saves and goes on. -/
def saveError (saved err : Option GoError) : Option GoError :=
  match saved with
  | some e => some e
  | none => err

mutual
/-- Whether a JSON value holds a number literal outside the `float64` range,
which the decoder reports when it stores the value in an `interface{}`. -/
def JSON.badNumber : JSON → Bool
  | .null => false
  | .bool _ => false
  | .num n => (ParseFloat n).isNone
  | .str _ => false
  | .arr xs => xs.badNumber
  | .obj ms => ms.badNumber
/-- Whether an element holds a number literal outside the `float64` range. -/
def JSONList.badNumber : JSONList → Bool
  | .nil => false
  | .cons x xs => x.badNumber || xs.badNumber
/-- Whether a member holds a number literal outside the `float64` range. -/
def JSONMembers.badNumber : JSONMembers → Bool
  | .nil => false
  | .cons _ v ms => v.badNumber || ms.badNumber
end

/-- Decoding of a JSON value into a field of type `interface{}`: the new value
of the field and the error saved, if any. -/
def decodeInterface (old : GoAny) (v : JSON) : GoAny × Option GoError :=
  match v with
  | .null => (.nil, none)
  | .bool b => (.bool b, none)
  | .str s => (.string (go s), none)
  | .num n =>
    match ParseFloat n with
    | some f => (.float64 f, none)
    | none => (old, some (.unmarshalType .number))
  | .arr xs => (.slice, if xs.badNumber then some (.unmarshalType .number) else none)
  | .obj ms => (.map, if ms.badNumber then some (.unmarshalType .number) else none)

/-- Decoding of a JSON value into a field of type `string`: a string is stored,
`null` leaves the field as it is, any other kind is a type error. -/
def decodeString (old : GoString) (v : JSON) : GoString × Option GoError :=
  match v with
  | .str s => (go s, none)
  | .null => (old, none)
  | .bool _ => (old, some (.unmarshalType .bool))
  | .num _ => (old, some (.unmarshalType .number))
  | .arr _ => (old, some (.unmarshalType .array))
  | .obj _ => (old, some (.unmarshalType .object))

/-- Decoding of a JSON value into a field of type `int`. -/
def decodeInt (old : Int) (v : JSON) : Int × Option GoError :=
  match v with
  | .num n =>
    match ParseInt n with
    | some i => (i, none)
    | none => (old, some (.unmarshalType .number))
  | .null => (old, none)
  | .bool _ => (old, some (.unmarshalType .bool))
  | .str _ => (old, some (.unmarshalType .string))
  | .arr _ => (old, some (.unmarshalType .array))
  | .obj _ => (old, some (.unmarshalType .object))

/-! ## The data model of the repository -/

/-- TrendPrice represents the Current and Today properties in Item. -/
structure TrendPrice where
  Trend : GoString
  Price : GoString
deriving DecidableEq, Repr

/-- Item represents an item in the Grand Exchange. -/
structure Item where
  Icon : GoString
  Icon_large : GoString
  Id : Int
  TypeItem : GoString
  TypeIcon : GoString
  Name : GoString
  Description : GoString
  Current : TrendPrice
  Today : TrendPrice
  Members : GoString
deriving DecidableEq, Repr

/-- GeResponse represents the JSON response from the Grand Exchange endpoint.
`Items` is a Go slice: `none` is the nil slice. -/
structure GeResponse where
  Total : Int
  Items : Option (List Item)
deriving DecidableEq, Repr

/-- The zero value of `TrendPrice`. -/
def TrendPrice.zero : TrendPrice := ⟨[], []⟩

/-- The zero value of `Item`. -/
def Item.zero : Item := ⟨[], [], 0, [], [], [], [], TrendPrice.zero, TrendPrice.zero, []⟩

/-- The zero value of `GeResponse`. -/
def GeResponse.zero : GeResponse := ⟨0, none⟩

/-! ## TrendPrice.UnmarshalJSON -/

/-- The local variable `raw` of `UnmarshalJSON`:
`struct { Trend string; Price interface{} }`. -/
structure Raw where
  Trend : GoString
  Price : GoAny
deriving DecidableEq, Repr

/-- The members of an object decoded into `raw`, in their order: each member
named `trend` or `price` is decoded into its field, the others are skipped. -/
def decodeRawMembers : JSONMembers → Raw × Option GoError → Raw × Option GoError
  | .nil, st => st
  | .cons key v ms, (raw, saved) =>
    if keyMatches key "trend" then
      let r := decodeString raw.Trend v
      decodeRawMembers ms ({ raw with Trend := r.1 }, saveError saved r.2)
    else if keyMatches key "price" then
      let r := decodeInterface raw.Price v
      decodeRawMembers ms ({ raw with Price := r.1 }, saveError saved r.2)
    else decodeRawMembers ms (raw, saved)

/-- The call `json.Unmarshal(data, &raw)` on the zero value of `raw`: an object
is decoded member by member, `null` changes nothing, any other kind is a type
error. -/
def unmarshalRaw (data : JSON) : Raw × Option GoError :=
  match data with
  | .obj ms => decodeRawMembers ms (⟨[], .nil⟩, none)
  | .null => (⟨[], .nil⟩, none)
  | .bool _ => (⟨[], .nil⟩, some (.unmarshalType .bool))
  | .num _ => (⟨[], .nil⟩, some (.unmarshalType .number))
  | .str _ => (⟨[], .nil⟩, some (.unmarshalType .string))
  | .arr _ => (⟨[], .nil⟩, some (.unmarshalType .array))

/-- UnmarshalJSON unmarshals JSON data into a TrendPrice struct.  The receiver
`tp` is passed in and its new state is returned with the error; `none` is the
`nil` error.  A decoded `interface{}` never holds an `int`, so the `int` case of
the type switch is not reached. -/
def TrendPrice.UnmarshalJSON (tp : TrendPrice) (data : JSON) : TrendPrice × Option GoError :=
  let r := unmarshalRaw data
  match r.2 with
  | some err => (tp, some err)
  | none =>
    let raw := r.1
    let tp := { tp with Trend := raw.Trend }
    match raw.Price with
    | .string v => ({ tp with Price := v }, none)
    | .float64 v => ({ tp with Price := Itoa v.toInt }, none)
    | _ => (tp, some (.errorString (go "unexpected type for price")))

/-! ## Decoding a response body -/

/-- The members of an object decoded into an `Item`, in their order.  A saved
type error lets the decoding go on.  An error of `TrendPrice.UnmarshalJSON`
makes the call fail with the first error met: the type error saved before it
when there is one, else the error of `UnmarshalJSON` itself.  (In releases of
`encoding/json` where the error of an `UnmarshalJSON` method comes before a type
error saved earlier, the call fails as well, with the other of the two
errors.) -/
def decodeItemMembers :
    JSONMembers → Item × Option GoError → Except GoError (Item × Option GoError)
  | .nil, st => .ok st
  | .cons key v ms, (it, saved) =>
    if keyMatches key "icon" then
      let r := decodeString it.Icon v
      decodeItemMembers ms ({ it with Icon := r.1 }, saveError saved r.2)
    else if keyMatches key "icon_large" then
      let r := decodeString it.Icon_large v
      decodeItemMembers ms ({ it with Icon_large := r.1 }, saveError saved r.2)
    else if keyMatches key "id" then
      let r := decodeInt it.Id v
      decodeItemMembers ms ({ it with Id := r.1 }, saveError saved r.2)
    else if keyMatches key "type" then
      let r := decodeString it.TypeItem v
      decodeItemMembers ms ({ it with TypeItem := r.1 }, saveError saved r.2)
    else if keyMatches key "typeIcon" then
      let r := decodeString it.TypeIcon v
      decodeItemMembers ms ({ it with TypeIcon := r.1 }, saveError saved r.2)
    else if keyMatches key "name" then
      let r := decodeString it.Name v
      decodeItemMembers ms ({ it with Name := r.1 }, saveError saved r.2)
    else if keyMatches key "description" then
      let r := decodeString it.Description v
      decodeItemMembers ms ({ it with Description := r.1 }, saveError saved r.2)
    else if keyMatches key "current" then
      let r := it.Current.UnmarshalJSON v
      match r.2 with
      | some err => .error (saved.getD err)
      | none => decodeItemMembers ms ({ it with Current := r.1 }, saved)
    else if keyMatches key "today" then
      let r := it.Today.UnmarshalJSON v
      match r.2 with
      | some err => .error (saved.getD err)
      | none => decodeItemMembers ms ({ it with Today := r.1 }, saved)
    else if keyMatches key "members" then
      let r := decodeString it.Members v
      decodeItemMembers ms ({ it with Members := r.1 }, saveError saved r.2)
    else decodeItemMembers ms (it, saved)

/-- Decoding of a JSON value into an `Item`. -/
def decodeItem (st : Item × Option GoError) (v : JSON) :
    Except GoError (Item × Option GoError) :=
  match v with
  | .obj ms => decodeItemMembers ms st
  | .null => .ok st
  | .bool _ => .ok (st.1, saveError st.2 (some (.unmarshalType .bool)))
  | .num _ => .ok (st.1, saveError st.2 (some (.unmarshalType .number)))
  | .str _ => .ok (st.1, saveError st.2 (some (.unmarshalType .string)))
  | .arr _ => .ok (st.1, saveError st.2 (some (.unmarshalType .array)))

/-- The elements of an array decoded into a slice of items: element `i` is
decoded into the element `i` the slice already has, or into a zero `Item` when
the slice is shorter (as it is for the fresh response of the client; memory a
longer slice left behind its length is not modelled). -/
def decodeItemList :
    JSONList → List Item → Option GoError → Except GoError (List Item × Option GoError)
  | .nil, _, saved => .ok ([], saved)
  | .cons x xs, old, saved =>
    match decodeItem (old.headD Item.zero, saved) x with
    | .error err => .error err
    | .ok r =>
      match decodeItemList xs old.tail r.2 with
      | .error err => .error err
      | .ok rs => .ok (r.1 :: rs.1, rs.2)

/-- Decoding of a JSON value into the field `Items []Item`: an array yields a
non-nil slice of its elements, `null` the nil slice, any other kind a type
error. -/
def decodeItems (old : Option (List Item)) (saved : Option GoError) (v : JSON) :
    Except GoError (Option (List Item) × Option GoError) :=
  match v with
  | .arr xs =>
    match decodeItemList xs (old.getD []) saved with
    | .error err => .error err
    | .ok rs => .ok (some rs.1, rs.2)
  | .null => .ok (none, saved)
  | .bool _ => .ok (old, saveError saved (some (.unmarshalType .bool)))
  | .num _ => .ok (old, saveError saved (some (.unmarshalType .number)))
  | .str _ => .ok (old, saveError saved (some (.unmarshalType .string)))
  | .obj _ => .ok (old, saveError saved (some (.unmarshalType .object)))

/-- The members of an object decoded into a `GeResponse`, in their order. -/
def decodeGeMembers :
    JSONMembers → GeResponse × Option GoError → Except GoError (GeResponse × Option GoError)
  | .nil, st => .ok st
  | .cons key v ms, (resp, saved) =>
    if keyMatches key "total" then
      let r := decodeInt resp.Total v
      decodeGeMembers ms ({ resp with Total := r.1 }, saveError saved r.2)
    else if keyMatches key "items" then
      match decodeItems resp.Items saved v with
      | .error err => .error err
      | .ok r => decodeGeMembers ms ({ resp with Items := r.1 }, r.2)
    else decodeGeMembers ms (resp, saved)

/-- The text of a response body: well-formed JSON denoting a value, or not. -/
inductive Document where
  | malformed (msg : String)
  | value (v : JSON)

/-- The statements `var response GeResponse; err = json.Unmarshal(body, &response)`:
the decoded response, or the error returned (the syntax error of a malformed
text, or the first error met in decoding). -/
def Unmarshal (body : Document) : Except GoError GeResponse :=
  match body with
  | .malformed msg => .error (.malformed msg)
  | .value (.obj ms) =>
    match decodeGeMembers ms (GeResponse.zero, none) with
    | .error err => .error err
    | .ok (_, some err) => .error err
    | .ok (resp, none) => .ok resp
  | .value .null => .ok GeResponse.zero
  | .value (.bool _) => .error (.unmarshalType .bool)
  | .value (.num _) => .error (.unmarshalType .number)
  | .value (.str _) => .error (.unmarshalType .string)
  | .value (.arr _) => .error (.unmarshalType .array)

/-! ## encoding/json: encoding -/

/-- The JSON string the encoder writes for a Go string: its runes, each byte
that is not part of a well-formed encoding replaced by U+FFFD. -/
def marshalString (s : GoString) : JSON := .str (String.mk (runes s))

/-- The default struct encoding of a `TrendPrice`. -/
def TrendPrice.marshal (tp : TrendPrice) : JSON :=
  .obj (.ofList [("trend", marshalString tp.Trend), ("price", marshalString tp.Price)])

/-- The default struct encoding of an `Item`. -/
def Item.marshal (it : Item) : JSON :=
  .obj (.ofList [
    ("icon", marshalString it.Icon),
    ("icon_large", marshalString it.Icon_large),
    ("id", .num (.ofInt it.Id)),
    ("type", marshalString it.TypeItem),
    ("typeIcon", marshalString it.TypeIcon),
    ("name", marshalString it.Name),
    ("description", marshalString it.Description),
    ("current", it.Current.marshal),
    ("today", it.Today.marshal),
    ("members", marshalString it.Members)])

/-- The value of `json.Marshal(r)` for a `GeResponse`: the nil slice is written
as `null`. -/
def Marshal (r : GeResponse) : JSON :=
  .obj (.ofList [
    ("total", .num (.ofInt r.Total)),
    ("items",
      match r.Items with
      | none => .null
      | some items => .arr (.ofList (items.map Item.marshal)))])

/-! ## The client -/

/-- An `*http.Response`: its status and the outcome of reading its body. -/
structure Response where
  StatusCode : Int
  Status : GoString
  Body : Except GoError Document

/-- The behaviour of `(*http.Client).Get`: the response to a URL, or an error. -/
abbrev Transport := GoString → Except GoError Response

/-- Client represents a client for interacting with the Runescape API, as
`NewClient` returns it: `client` and `BaseURL` are not nil. -/
structure Client where
  client : Transport
  BaseURL : URL
  UserAgent : GoString

/-- The constant `baseURL`, parsed by `url.Parse`. -/
def baseURL : URL := { Scheme := go "https", Host := go "secure.runescape.com" }

/-- The constant `userAgent`. -/
def userAgent : GoString := go "go-runescape"

/-- The fields of a `Client` before they are filled: the two pointers may be
nil (`none`) and the user agent may be empty. -/
structure ClientFields where
  client : Option Transport
  BaseURL : Option URL
  UserAgent : GoString

/-- Fills the fields of a Runescape API client that are not set with their
default values; `network` is the behaviour of the default `http.Client`. -/
def Client.initialize (network : Transport) (c : ClientFields) : Client :=
  { client := c.client.getD network
    BaseURL := c.BaseURL.getD baseURL
    UserAgent := if c.UserAgent == [] then userAgent else c.UserAgent }

/-- NewClient creates a new Runescape API client.  If `httpClient` is nil, a
default HTTP client is used. -/
def NewClient (network : Transport) (httpClient : Option Transport) : Client :=
  Client.initialize network ⟨some (httpClient.getD network), none, []⟩

/-- The map `validGameTypes`. -/
def validGameTypes : List (GoString × Bool) := [(go "rs3", true), (go "osrs", true)]

/-- What a call of `ListGrandExchangeItems` does: the URLs it passed to the
transport, in order, and how it ended. -/
structure Call where
  requests : List GoString
  result : Outcome GeResponse

/-- ListGrandExchangeItems retrieves a list of items from the Grand Exchange. -/
def Client.ListGrandExchangeItems (c : Client) (gameType itemAlpha : GoString)
    (itemCategory page : Int) : Call :=
  if !((validGameTypes.lookup gameType).getD false) then
    ⟨[], .fail (.errorString (go "gameType must be \"rs3\" or \"osrs\""))⟩
  else
    let itemByte := itemAlpha
    if itemByte.length > 1 then
      ⟨[], .fail (.errorString (go "itemAlpha should be one character a-z or #"))⟩
    else
      match itemByte with
      | [] => ⟨[], .panic "runtime error: index out of range [0] with length 0"⟩
      | b0 :: _ =>
        let charCode : Int := b0.toNat
        if (charCode < 97 && charCode != 35) || charCode > 122 then
          ⟨[], .fail (.errorString (go "invalid character"))⟩
        else if page < 1 then
          ⟨[], .fail (.errorString (go "page must be > 1"))⟩
        else
          let gameTypeString := if gameType == go "rs3" then go "rs" else go "oldschool"
          let category := if gameType == go "rs3" then itemCategory else 1
          let path := c.BaseURL.JoinPath
            [go "/m=itemdb_" ++ gameTypeString, go "/api/catalogue/items.json"]
          let v : Values := ⟨[]⟩
          let v := v.Set (go "category") (FormatInt category)
          let v := v.Set (go "alpha") itemAlpha
          let v := v.Set (go "page") (FormatInt page)
          let req := path.String ++ go "?" ++ v.Encode
          match c.client req with
          | .error err => ⟨[req], .fail err⟩
          | .ok resp =>
            if resp.StatusCode != 200 then
              ⟨[req], .fail (.errorString resp.Status)⟩
            else
              match resp.Body with
              | .error err => ⟨[req], .fail err⟩
              | .ok body =>
                match Unmarshal body with
                | .error err => ⟨[req], .fail err⟩
                | .ok response => ⟨[req], .ok response⟩

/-! ## Vocabulary of the statements -/

/-- The call was rejected before any request was made, with `errors.New(msg)`. -/
def Call.rejectedWith (k : Call) (msg : String) : Prop :=
  k.requests = [] ∧ k.result = .fail (.errorString (go msg))

instance (k : Call) (msg : String) : Decidable (k.rejectedWith msg) := by
  unfold Call.rejectedWith; exact inferInstance

/-- A transport that refuses every request. -/
def offline : Transport := fun _ => .error (.network "connection refused")

/-- A transport that answers every request with the given status and body. -/
def serving (code : Int) (status : String) (body : Document) : Transport :=
  fun _ => .ok ⟨code, go status, .ok body⟩

/-- A byte the query escaping leaves as it is. -/
def plainByte (b : UInt8) : Prop := (48 ≤ b.toNat ∧ b.toNat ≤ 57) ∨ b.toNat = 45

/-- The path is one that `JoinPath` keeps as it is when it joins further
elements to it: it is empty, or its segments - after the leading slash of a
rooted path - are neither empty nor `.` nor `..`; such a path does not end in a
slash. -/
def keptByJoin (p : GoString) : Bool :=
  p == [] || (splitSlash (if p.head? == some 47 then p.drop 1 else p)).all
    fun seg => seg != [] && seg != go "." && seg != go ".."

/-- The values of the members of an object that the decoder stores in the struct
field with the JSON name `name`, in the order of the text. -/
def JSONMembers.valuesFor (name : String) : JSONMembers → List JSON
  | .nil => []
  | .cons key v ms =>
    if keyMatches key name then v :: JSONMembers.valuesFor name ms
    else JSONMembers.valuesFor name ms

/-- The JSON number literal `x` denotes the integer `i`: its signed digits times
its power of ten is `i`. -/
def JNumber.denotesInt (x : JNumber) (i : Int) : Prop :=
  (if x.neg then -(x.mant : Int) else (x.mant : Int))
      * 10 ^ (x.exp.getD 0 - (x.fracLen : Int)).toNat
    = i * 10 ^ (-(x.exp.getD 0 - (x.fracLen : Int))).toNat

instance (x : JNumber) (i : Int) : Decidable (x.denotesInt i) := by
  unfold JNumber.denotesInt; exact inferInstance

/-- The integer is a value of `float64`: its magnitude is `m * 2^k` with a
significand `m` below `2^53`.  Every integer of magnitude up to `2^53` is one. -/
def isFloat64Integer (i : Int) : Prop := ∃ m k : Nat, m < 2 ^ 53 ∧ i.natAbs = m * 2 ^ k

/-- The JSON object with a `trend` and a `price` member. -/
def trendPriceObject (trend price : JSON) : JSON :=
  .obj (.ofList [("trend", trend), ("price", price)])

/-- The integer fits a Go `int` of 64 bits. -/
def isInt64 (i : Int) : Bool := decide (-2 ^ 63 ≤ i ∧ i < 2 ^ 63)

/-- Both strings of a `TrendPrice` are valid UTF-8. -/
def TrendPrice.wellFormed (tp : TrendPrice) : Bool :=
  ValidString tp.Trend && ValidString tp.Price

/-- The strings of an `Item` are valid UTF-8 and its `Id` is a Go `int`. -/
def Item.wellFormed (it : Item) : Bool :=
  ValidString it.Icon && ValidString it.Icon_large && isInt64 it.Id
    && ValidString it.TypeItem && ValidString it.TypeIcon && ValidString it.Name
    && ValidString it.Description && it.Current.wellFormed && it.Today.wellFormed
    && ValidString it.Members

/-- The strings of a `GeResponse` are valid UTF-8 and its integers are Go
`int`s. -/
def GeResponse.wellFormed (r : GeResponse) : Bool :=
  isInt64 r.Total &&
    match r.Items with
    | none => true
    | some items => items.all Item.wellFormed

/-! ## Validation -/

theorem go_empty : go "" = [] := rfl

theorem lookup_valid (gameType : GoString) (h : gameType = go "rs3" ∨ gameType = go "osrs") :
    (validGameTypes.lookup gameType).getD false = true := by
  rcases h with h | h <;> subst h <;> decide

theorem lookup_invalid (gameType : GoString) (h3 : gameType ≠ go "rs3")
    (ho : gameType ≠ go "osrs") : (validGameTypes.lookup gameType).getD false = false := by
  have e3 : (gameType == go "rs3") = false := beq_eq_false_iff_ne.mpr h3
  have eo : (gameType == go "osrs") = false := beq_eq_false_iff_ne.mpr ho
  simp [validGameTypes, List.lookup, e3, eo]

/-- C7: a gameType other than "rs3" and "osrs" is rejected with the gameType
error whatever the other arguments are, the empty itemAlpha included, and the
transport is not invoked. -/
theorem gameType_rejected_first (c : Client) (gameType itemAlpha : GoString)
    (itemCategory page : Int) (h3 : gameType ≠ go "rs3") (ho : gameType ≠ go "osrs") :
    (c.ListGrandExchangeItems gameType itemAlpha itemCategory page).requests = [] ∧
    (c.ListGrandExchangeItems gameType itemAlpha itemCategory page).result
      = .fail (.errorString (go "gameType must be \"rs3\" or \"osrs\"")) := by
  simp [Client.ListGrandExchangeItems, lookup_invalid gameType h3 ho]

/-- The gameType rule at the gameType of the test, with an empty itemAlpha. -/
theorem gameType_rejected_first_witness :
    go "invalidGameType" ≠ go "rs3" ∧ go "invalidGameType" ≠ go "osrs" ∧
    ((NewClient offline none).ListGrandExchangeItems (go "invalidGameType") (go "") 1 1).requests
      = [] ∧
    ((NewClient offline none).ListGrandExchangeItems (go "invalidGameType") (go "") 1 1).result
      = .fail (.errorString (go "gameType must be \"rs3\" or \"osrs\"")) :=
  ⟨by decide, by decide,
    gameType_rejected_first (NewClient offline none) (go "invalidGameType") (go "") 1 1
      (by decide) (by decide)⟩

/-- C1: with a valid gameType an itemAlpha of two or more bytes is rejected with
the alpha-length error, but the empty itemAlpha passes the length check
`len(itemByte) > 1` and the index `itemByte[0]` panics. -/
theorem empty_itemAlpha_panics :
    (∀ (c : Client) (itemCategory page : Int) (b0 b1 : UInt8) (rest : GoString),
      (c.ListGrandExchangeItems (go "rs3") (b0 :: b1 :: rest) itemCategory page).rejectedWith
          "itemAlpha should be one character a-z or #" ∧
      (c.ListGrandExchangeItems (go "osrs") (b0 :: b1 :: rest) itemCategory page).rejectedWith
          "itemAlpha should be one character a-z or #") ∧
    (∀ (c : Client) (itemCategory page : Int),
      (c.ListGrandExchangeItems (go "rs3") (go "") itemCategory page).result
        = .panic "runtime error: index out of range [0] with length 0" ∧
      (c.ListGrandExchangeItems (go "osrs") (go "") itemCategory page).result
        = .panic "runtime error: index out of range [0] with length 0") := by
  have h3 := lookup_valid (go "rs3") (Or.inl rfl)
  have ho := lookup_valid (go "osrs") (Or.inr rfl)
  refine ⟨fun c itemCategory page b0 b1 rest => ⟨?_, ?_⟩, fun c itemCategory page => ⟨?_, ?_⟩⟩
  · simp [Client.ListGrandExchangeItems, Call.rejectedWith, h3]
  · simp [Client.ListGrandExchangeItems, Call.rejectedWith, ho]
  · simp [Client.ListGrandExchangeItems, h3, go_empty]
  · simp [Client.ListGrandExchangeItems, ho, go_empty]

/-- The character test of the source on the byte `b`. -/
theorem charCode_test (b : UInt8) :
    (((decide ((b.toNat : Int) < 97) && ((b.toNat : Int) != 35)) || decide ((b.toNat : Int) > 122))
      = true) ↔ ¬ ((97 ≤ b.toNat ∧ b.toNat ≤ 122) ∨ b.toNat = 35) := by
  simp only [Bool.or_eq_true, Bool.and_eq_true, decide_eq_true_eq, bne_iff_ne, ne_eq]
  omega

theorem call_of_bad_byte (c : Client) (gameType : GoString) (b : UInt8) (itemCategory page : Int)
    (hg : gameType = go "rs3" ∨ gameType = go "osrs")
    (hb : ¬ ((97 ≤ b.toNat ∧ b.toNat ≤ 122) ∨ b.toNat = 35)) :
    (c.ListGrandExchangeItems gameType [b] itemCategory page).rejectedWith "invalid character" := by
  have h := (charCode_test b).mpr hb
  simp only [Client.ListGrandExchangeItems, lookup_valid gameType hg, Call.rejectedWith]
  rw [if_neg (by simp), if_neg (by simp), if_pos h]
  exact ⟨rfl, rfl⟩

theorem call_of_bad_page (c : Client) (gameType : GoString) (b : UInt8) (itemCategory page : Int)
    (hg : gameType = go "rs3" ∨ gameType = go "osrs")
    (hb : (97 ≤ b.toNat ∧ b.toNat ≤ 122) ∨ b.toNat = 35) (hp : page < 1) :
    (c.ListGrandExchangeItems gameType [b] itemCategory page).rejectedWith "page must be > 1" := by
  have h := fun h => (charCode_test b).mp h hb
  simp only [Client.ListGrandExchangeItems, lookup_valid gameType hg, Call.rejectedWith]
  rw [if_neg (by simp), if_neg (by simp), if_neg h, if_pos hp]
  exact ⟨rfl, rfl⟩

/-- The URL of the single request of a call that passes validation. -/
theorem requests_of_valid (c : Client) (gameType : GoString) (b : UInt8) (itemCategory page : Int)
    (hg : gameType = go "rs3" ∨ gameType = go "osrs")
    (hb : (97 ≤ b.toNat ∧ b.toNat ≤ 122) ∨ b.toNat = 35) (hp : 1 ≤ page) :
    (c.ListGrandExchangeItems gameType [b] itemCategory page).requests =
      [(c.BaseURL.JoinPath
          [go "/m=itemdb_" ++ (if gameType == go "rs3" then go "rs" else go "oldschool"),
           go "/api/catalogue/items.json"]).String ++ go "?" ++
        ((((⟨[]⟩ : Values).Set (go "category")
            (FormatInt (if gameType == go "rs3" then itemCategory else 1))).Set
          (go "alpha") [b]).Set (go "page") (FormatInt page)).Encode] := by
  have h := fun h => (charCode_test b).mp h hb
  have hp' : ¬ page < 1 := by omega
  simp only [Client.ListGrandExchangeItems, lookup_valid gameType hg]
  rw [if_neg (by simp), if_neg (by simp), if_neg h, if_neg hp']
  split
  · rfl
  · split
    · rfl
    · split
      · rfl
      · split <;> rfl

/-- How a call ends once the transport has answered its request: with the
status text as error unless the status code is 200, and otherwise with the
outcome of reading and decoding the body. -/
theorem result_of_response (c : Client) (gameType itemAlpha : GoString) (itemCategory page : Int)
    (req : GoString) (resp : Response)
    (hreq : (c.ListGrandExchangeItems gameType itemAlpha itemCategory page).requests = [req])
    (hresp : c.client req = .ok resp) :
    (c.ListGrandExchangeItems gameType itemAlpha itemCategory page).result =
      if resp.StatusCode != 200 then .fail (.errorString resp.Status)
      else
        match resp.Body with
        | .error err => .fail err
        | .ok body =>
          match Unmarshal body with
          | .error err => .fail err
          | .ok response => .ok response := by
  generalize hk : c.ListGrandExchangeItems gameType itemAlpha itemCategory page = k at hreq ⊢
  simp only [Client.ListGrandExchangeItems] at hk
  split at hk
  · subst hk; simp at hreq
  · split at hk
    · subst hk; simp at hreq
    · split at hk
      · subst hk; simp at hreq
      · split at hk
        · subst hk; simp at hreq
        · split at hk
          · subst hk; simp at hreq
          · split at hk
            · rename_i e he
              subst hk
              simp only [List.cons.injEq, and_true] at hreq
              rw [hreq, hresp] at he
              cases he
            · rename_i r hr
              split at hk
              · subst hk
                simp only [List.cons.injEq, and_true] at hreq
                rw [hreq, hresp] at hr
                cases hr
                rename_i hs
                rw [if_pos hs]
              · rename_i hs
                split at hk
                · subst hk
                  simp only [List.cons.injEq, and_true] at hreq
                  rw [hreq, hresp] at hr
                  cases hr
                  rename_i hb
                  rw [if_neg hs]
                  simp only [hb]
                · split at hk
                  · subst hk
                    simp only [List.cons.injEq, and_true] at hreq
                    rw [hreq, hresp] at hr
                    cases hr
                    rename_i hb hu
                    rw [if_neg hs]
                    simp only [hb, hu]
                  · subst hk
                    simp only [List.cons.injEq, and_true] at hreq
                    rw [hreq, hresp] at hr
                    cases hr
                    rename_i hb hu
                    rw [if_neg hs]
                    simp only [hb, hu]

/-! ## The request URL -/

theorem strLess_alpha_category : strLess (go "alpha") (go "category") = true := by decide
theorem strLess_category_page : strLess (go "category") (go "page") = true := by decide
theorem strLess_alpha_page : strLess (go "alpha") (go "page") = true := by decide
theorem strLess_category_alpha : strLess (go "category") (go "alpha") = false := by decide
theorem strLess_page_alpha : strLess (go "page") (go "alpha") = false := by decide
theorem strLess_page_category : strLess (go "page") (go "category") = false := by decide

/-- The three parameters set by the client are encoded in the order of their
keys: alpha, category, page. -/
theorem encode_query (x y z : GoString) :
    ((((⟨[]⟩ : Values).Set (go "category") x).Set (go "alpha") y).Set (go "page") z).Encode =
      go "alpha=" ++ QueryEscape y ++ go "&category=" ++ QueryEscape x
        ++ go "&page=" ++ QueryEscape z := by
  have h1 : ((go "category" == go "alpha") = false) := by decide
  have h2 : ((go "category" == go "page") = false) := by decide
  have h3 : ((go "alpha" == go "page") = false) := by decide
  have a1 : QueryEscape (go "alpha") = go "alpha" := by decide
  have a2 : QueryEscape (go "category") = go "category" := by decide
  have a3 : QueryEscape (go "page") = go "page" := by decide
  simp only [Values.Set, Values.Encode, sortedByKey, insertSorted, h1, h2, h3,
    strLess_alpha_category, strLess_category_page, strLess_alpha_page,
    strLess_category_alpha, strLess_page_alpha, strLess_page_category, List.intercalate,
    List.any_nil, List.any_cons, Bool.or_false, Bool.false_eq_true, if_false, List.nil_append,
    List.cons_append, List.foldr_cons, List.foldr_nil, if_true, List.flatMap_cons,
    List.flatMap_nil, List.map_cons, List.map_nil, List.append_nil, List.intersperse,
    List.flatten_cons, List.flatten_nil, a1, a2, a3, Bool.or_self]
  simp [go, EncodeRune]

theorem u8_le (a b : UInt8) : a ≤ b ↔ a.toNat ≤ b.toNat := by
  simp [UInt8.le_def, BitVec.le_def, UInt8.toNat]

theorem u8_lt (a b : UInt8) : a < b ↔ a.toNat < b.toNat := by
  simp [UInt8.lt_def, BitVec.lt_def, UInt8.toNat]

theorem digitChar_isDigit : ∀ k, k < 10 →
    48 ≤ (digitByte (Nat.digitChar k)).toNat ∧ (digitByte (Nat.digitChar k)).toNat ≤ 57 := by
  decide

theorem toDigitsCore_digits (fuel : Nat) : ∀ (n : Nat) (ds : List Char),
    (∀ ch ∈ ds, 48 ≤ (digitByte ch).toNat ∧ (digitByte ch).toNat ≤ 57) →
    ∀ ch ∈ Nat.toDigitsCore 10 fuel n ds, 48 ≤ (digitByte ch).toNat ∧ (digitByte ch).toNat ≤ 57 := by
  induction fuel with
  | zero => intro n ds h; simpa [Nat.toDigitsCore] using h
  | succ fuel ih =>
    intro n ds h
    have hd := digitChar_isDigit (n % 10) (Nat.mod_lt _ (by decide))
    have h' : ∀ ch ∈ Nat.digitChar (n % 10) :: ds,
        48 ≤ (digitByte ch).toNat ∧ (digitByte ch).toNat ≤ 57 := by
      intro ch hch
      rcases List.mem_cons.mp hch with rfl | hch
      · exact hd
      · exact h ch hch
    simp only [Nat.toDigitsCore]
    split
    · exact h'
    · exact ih _ _ h'

theorem escape_plain (s : GoString) (h : ∀ b ∈ s, plainByte b) : QueryEscape s = s := by
  induction s with
  | nil => rfl
  | cons b s ih =>
    have hb := h b (List.mem_cons_self _ _)
    have hs : QueryEscape s = s := ih (fun x hx => h x (List.mem_cons_of_mem _ hx))
    have e1 : (b == 32) = false := by
      rw [beq_eq_false_iff_ne]; intro hh; subst hh
      have h32 : (32 : UInt8).toNat = 32 := rfl
      simp only [plainByte, h32] at hb; omega
    have e2 : shouldEscape b .encodeQueryComponent = false := by
      rcases hb with ⟨h1, h2⟩ | h1
      · have : isAlnum b = true := by
          have h48 : (48 : UInt8).toNat = 48 := rfl
          have h57 : (57 : UInt8).toNat = 57 := rfl
          simp only [isAlnum, Bool.or_eq_true, Bool.and_eq_true, decide_eq_true_eq, u8_le]
          right
          exact ⟨by omega, by omega⟩
        simp [shouldEscape, this]
      · have : b = 45 := UInt8.toNat.inj h1
        subst this; decide
    simp only [QueryEscape, escape, List.flatMap_cons, e1, e2, Bool.false_and] at hs ⊢
    simp only [Bool.false_eq_true, if_false, List.singleton_append, hs]

theorem formatInt_plain (i : Int) : ∀ b ∈ FormatInt i, plainByte b := by
  intro b hb
  cases i with
  | ofNat n =>
    simp only [FormatInt, List.mem_map] at hb
    obtain ⟨ch, hch, rfl⟩ := hb
    exact Or.inl (toDigitsCore_digits _ _ _ (by simp) ch hch)
  | negSucc n =>
    simp only [FormatInt, List.mem_cons, List.mem_map] at hb
    rcases hb with rfl | ⟨ch, hch, rfl⟩
    · exact Or.inr (by decide)
    · exact Or.inl (toDigitsCore_digits _ _ _ (by simp) ch hch)

/-- The decimal form of an integer is not changed by the query escaping. -/
theorem queryEscape_formatInt (i : Int) : QueryEscape (FormatInt i) = FormatInt i :=
  escape_plain _ (formatInt_plain i)

/-! ## Bytes -/

theorem u8_lt_256 (b : UInt8) : b.toNat < 256 := UInt8.toNat_lt_size b

theorem u8_eq_ofNat (b : UInt8) (n : Nat) (h : n = b.toNat) : UInt8.ofNat n = b := by
  apply UInt8.toNat.inj
  rw [UInt8.toNat_ofNat_of_lt (by rw [h]; exact u8_lt_256 b), h]

/-- A property that holds of the 256 byte values holds of every byte. -/
theorem forall_byte (P : UInt8 → Prop) (h : ∀ n, n < 256 → P (UInt8.ofNat n)) (b : UInt8) : P b := by
  have := h b.toNat (u8_lt_256 b)
  rwa [u8_eq_ofNat b b.toNat rfl] at this

/-! ## Escaping of a path -/

set_option maxRecDepth 100000 in
theorem hex_of_byte : ∀ n, n < 256 →
    ishex (upperhex ((UInt8.ofNat n).toNat / 16)) = true ∧
    ishex (upperhex ((UInt8.ofNat n).toNat % 16)) = true ∧
    UInt8.ofNat (unhex (upperhex ((UInt8.ofNat n).toNat / 16)) * 16
      + unhex (upperhex ((UInt8.ofNat n).toNat % 16))) = UInt8.ofNat n := by
  decide

theorem unescape_cons_of_ne (c : UInt8) (rest : GoString) (h : c ≠ 37) :
    unescape (c :: rest) .encodePath = (unescape rest .encodePath).map (c :: ·) := by
  have h1 : (c == 37) = false := beq_eq_false_iff_ne.mpr h
  by_cases h2 : c = 43
  · subst h2
    match rest with
    | [] => simp [unescape]
    | [_] => simp [unescape]
    | _ :: _ :: _ => simp [unescape]
  · have h3 : (c == 43) = false := beq_eq_false_iff_ne.mpr h2
    match rest with
    | [] => simp [unescape, h1, h3]
    | [_] => simp [unescape, h1, h3]
    | _ :: _ :: _ => simp [unescape, h1, h3]

theorem unescape_percent (h1 h2 : UInt8) (rest : GoString) :
    unescape (37 :: h1 :: h2 :: rest) .encodePath =
      if ishex h1 && ishex h2 then
        (unescape rest .encodePath).map (UInt8.ofNat (unhex h1 * 16 + unhex h2) :: ·)
      else none := by
  by_cases hh : (ishex h1 && ishex h2) = true
  · simp [unescape, hh]
  · simp [unescape, hh]

/-- Unescaping goes through a concatenation whose first part unescapes. -/
theorem unescape_append_aux : ∀ (n : Nat) (a a' b : GoString), a.length ≤ n →
    unescape a .encodePath = some a' →
    unescape (a ++ b) .encodePath = (unescape b .encodePath).map (a' ++ ·) := by
  intro n
  induction n with
  | zero =>
    intro a a' b h ha
    have : a = [] := List.length_eq_zero.mp (by omega)
    subst this
    simp only [unescape, Option.some.injEq] at ha
    subst ha
    simp
  | succ n ih =>
    intro a a' b h ha
    match a, h, ha with
    | [], _, ha =>
      simp only [unescape, Option.some.injEq] at ha
      subst ha
      simp
    | c :: rest, h, ha =>
      by_cases hc : c = 37
      · subst hc
        match rest, h, ha with
        | [], _, ha => simp [unescape] at ha
        | [h1], _, ha => simp [unescape] at ha
        | h1 :: h2 :: rest2, h, ha =>
          rw [unescape_percent] at ha
          rw [List.cons_append, List.cons_append, List.cons_append, unescape_percent]
          by_cases hh : (ishex h1 && ishex h2) = true
          · rw [if_pos hh] at ha ⊢
            cases hr : unescape rest2 .encodePath with
            | none => rw [hr] at ha; simp at ha
            | some r =>
              rw [hr] at ha
              simp only [Option.map_some', Option.some.injEq] at ha
              subst ha
              rw [ih rest2 r b (by simp at h; omega) hr]
              cases unescape b .encodePath <;> simp
          · rw [if_neg hh] at ha; cases ha
      · rw [unescape_cons_of_ne _ _ hc] at ha
        rw [List.cons_append, unescape_cons_of_ne _ _ hc]
        cases hr : unescape rest .encodePath with
        | none => rw [hr] at ha; simp at ha
        | some r =>
          rw [hr] at ha
          simp only [Option.map_some', Option.some.injEq] at ha
          subst ha
          rw [ih rest r b (by simp at h; omega) hr]
          cases unescape b .encodePath <;> simp

theorem unescape_append (a a' b : GoString) (ha : unescape a .encodePath = some a') :
    unescape (a ++ b) .encodePath = (unescape b .encodePath).map (a' ++ ·) :=
  unescape_append_aux a.length a a' b (le_refl _) ha

/-- A path unescapes exactly when the parts before and after a slash do. -/
theorem unescape_slash_aux : ∀ (n : Nat) (a b : GoString), a.length ≤ n →
    (unescape (a ++ 47 :: b) .encodePath).isSome
      = ((unescape a .encodePath).isSome && (unescape b .encodePath).isSome) := by
  intro n
  induction n with
  | zero =>
    intro a b h
    have : a = [] := List.length_eq_zero.mp (by omega)
    subst this
    rw [List.nil_append, unescape_cons_of_ne 47 b (by decide)]
    cases unescape b .encodePath <;> simp [unescape]
  | succ n ih =>
    intro a b h
    match a, h with
    | [], _ =>
      rw [List.nil_append, unescape_cons_of_ne 47 b (by decide)]
      cases unescape b .encodePath <;> simp [unescape]
    | c :: rest, h =>
      by_cases hc : c = 37
      · subst hc
        match rest, h with
        | [], _ =>
          cases b with
          | nil => simp [unescape]
          | cons b0 b1 =>
            have : ishex 47 = false := by decide
            simp [unescape, this]
        | [h1], _ =>
          have : ishex 47 = false := by decide
          simp [unescape, this]
        | h1 :: h2 :: rest2, h =>
          rw [List.cons_append, List.cons_append, List.cons_append, unescape_percent,
            unescape_percent]
          by_cases hh : (ishex h1 && ishex h2) = true
          · rw [if_pos hh, if_pos hh]
            have := ih rest2 b (by simp at h; omega)
            cases h1' : unescape (rest2 ++ 47 :: b) .encodePath <;>
              cases h2' : unescape rest2 .encodePath <;>
              cases h3' : unescape b .encodePath <;>
              simp [h1', h2', h3'] at this ⊢
          · rw [if_neg hh, if_neg hh]; simp
      · rw [List.cons_append, unescape_cons_of_ne _ _ hc, unescape_cons_of_ne _ _ hc]
        have := ih rest b (by simp at h; omega)
        cases h1' : unescape (rest ++ 47 :: b) .encodePath <;>
          cases h2' : unescape rest .encodePath <;>
          cases h3' : unescape b .encodePath <;>
          simp [h1', h2', h3'] at this ⊢

theorem unescape_slash (a b : GoString) :
    (unescape (a ++ 47 :: b) .encodePath).isSome
      = ((unescape a .encodePath).isSome && (unescape b .encodePath).isSome) :=
  unescape_slash_aux a.length a b (le_refl _)

theorem unescape_eq_nil (s : GoString) (h : unescape s .encodePath = some []) : s = [] := by
  match s, h with
  | [], _ => rfl
  | c :: rest, h =>
    exfalso
    by_cases hc : c = 37
    · subst hc
      match rest, h with
      | [], h => simp [unescape] at h
      | [h1], h => simp [unescape] at h
      | h1 :: h2 :: rest2, h =>
        rw [unescape_percent] at h
        split at h
        · cases hr : unescape rest2 .encodePath <;> simp [hr] at h
        · cases h
    · rw [unescape_cons_of_ne _ _ hc] at h
      cases hr : unescape rest .encodePath <;> simp [hr] at h

/-- The escaped form of a path unescapes to the path. -/
theorem unescape_escape (s : GoString) :
    unescape (escape s .encodePath) .encodePath = some s := by
  induction s with
  | nil => rfl
  | cons c s ih =>
    have e : escape (c :: s) .encodePath
        = (if shouldEscape c .encodePath then [37, upperhex (c.toNat / 16), upperhex (c.toNat % 16)]
            else [c]) ++ escape s .encodePath := by
      simp [escape]
    rw [e]
    by_cases hs : shouldEscape c .encodePath = true
    · have hx := forall_byte (fun c => ishex (upperhex (c.toNat / 16)) = true ∧
          ishex (upperhex (c.toNat % 16)) = true ∧
          UInt8.ofNat (unhex (upperhex (c.toNat / 16)) * 16
            + unhex (upperhex (c.toNat % 16))) = c) hex_of_byte c
      rw [if_pos hs]
      simp only [List.cons_append, List.nil_append]
      rw [unescape_percent, hx.1, hx.2.1, hx.2.2, ih]
      rfl
    · have hc : c ≠ 37 := by
        intro h; subst h; exact hs (by decide)
      rw [if_neg hs]
      simp only [List.cons_append, List.nil_append]
      rw [unescape_cons_of_ne _ _ hc, ih]
      rfl

/-- A byte that `validEncoded` accepts in a path. -/
theorem validEncoded_iff (s : GoString) :
    validEncoded s .encodePath = true ↔
      ∀ c ∈ s, ((go "!$&()*+,;=:@[]%").contains c || c == 39
        || !shouldEscape c .encodePath) = true := by
  simp only [validEncoded, List.all_eq_true]

theorem validEncoded_append (a b : GoString) :
    validEncoded (a ++ b) .encodePath
      = (validEncoded a .encodePath && validEncoded b .encodePath) := by
  simp [validEncoded, List.all_append]

theorem hex_valid : ∀ n, n < 16 →
    ((go "!$&()*+,;=:@[]%").contains (upperhex n) || upperhex n == 39
      || !shouldEscape (upperhex n) .encodePath) = true := by
  decide

/-- The escaped form of a path is accepted by `validEncoded`. -/
theorem validEncoded_escape (s : GoString) :
    validEncoded (escape s .encodePath) .encodePath = true := by
  induction s with
  | nil => rfl
  | cons c s ih =>
    have e : escape (c :: s) .encodePath
        = (if shouldEscape c .encodePath then [37, upperhex (c.toNat / 16), upperhex (c.toNat % 16)]
            else [c]) ++ escape s .encodePath := by
      simp [escape]
    rw [e, validEncoded_append, ih, Bool.and_true]
    by_cases hs : shouldEscape c .encodePath = true
    · rw [if_pos hs, validEncoded_iff]
      intro x hx
      simp only [List.mem_cons, List.mem_singleton, List.not_mem_nil, or_false] at hx
      rcases hx with rfl | rfl | rfl
      · decide
      · exact hex_valid _ (Nat.div_lt_of_lt_mul (by have := u8_lt_256 c; omega))
      · exact hex_valid _ (Nat.mod_lt _ (by decide))
    · rw [if_neg hs, validEncoded_iff]
      intro x hx
      simp only [List.mem_singleton] at hx
      subst hx
      simp [hs]

theorem escape_eq_nil (s : GoString) (h : escape s .encodePath = []) : s = [] := by
  cases s with
  | nil => rfl
  | cons c s =>
    exfalso
    simp only [escape, List.flatMap_cons] at h
    split at h
    · simp at h
    · split at h <;> simp at h

/-! ## The escaped path of a URL -/

theorem escapedPath_unescapes (u : URL) : (unescape u.EscapedPath .encodePath).isSome = true := by
  unfold URL.EscapedPath
  split
  · rename_i h
    simp only [Bool.and_eq_true, beq_iff_eq] at h
    rw [h.2]; rfl
  · split
    · decide
    · rw [unescape_escape]; rfl

theorem escapedPath_valid (u : URL) : validEncoded u.EscapedPath .encodePath = true := by
  unfold URL.EscapedPath
  split
  · rename_i h
    simp only [Bool.and_eq_true] at h
    exact h.1.2
  · split
    · decide
    · exact validEncoded_escape _

theorem escapedPath_eq_nil_iff (u : URL) : u.EscapedPath = [] ↔ u.Path = [] := by
  unfold URL.EscapedPath
  constructor
  · intro h
    split at h
    · rename_i hc
      simp only [Bool.and_eq_true, bne_iff_ne, ne_eq] at hc
      exact absurd h hc.1.1
    · split at h
      · exact absurd h (by decide)
      · exact escape_eq_nil _ h
  · intro h
    rw [h]
    split
    · rename_i hc
      simp only [Bool.and_eq_true, bne_iff_ne, ne_eq, beq_iff_eq] at hc
      exact absurd (unescape_eq_nil _ hc.2) hc.1.1
    · rfl

/-! ## The segments of a path and `path.Clean` -/

theorem splitSlash_ne_nil (x : GoString) : splitSlash x ≠ [] := by
  cases x with
  | nil => simp [splitSlash]
  | cons c cs =>
    simp only [splitSlash]
    split
    · simp
    · split <;> simp

theorem splitSlash_slash (b : GoString) : splitSlash (47 :: b) = [] :: splitSlash b := by
  simp only [splitSlash]
  split
  · rename_i h; exact absurd h (splitSlash_ne_nil b)
  · rename_i seg segs h; simp [h]

theorem splitSlash_append (a b : GoString) :
    splitSlash (a ++ 47 :: b) = splitSlash a ++ splitSlash b := by
  induction a with
  | nil => rw [List.nil_append, splitSlash_slash]; rfl
  | cons c a ih =>
    rw [List.cons_append]
    simp only [splitSlash]
    rw [ih]
    cases h : splitSlash a with
    | nil => exact absurd h (splitSlash_ne_nil a)
    | cons seg segs =>
      simp only [List.cons_append]
      split <;> rfl

theorem intercalate_cons_cons (sep a b : GoString) (t : List GoString) :
    sep.intercalate (a :: b :: t) = a ++ sep ++ sep.intercalate (b :: t) := by
  simp [List.intercalate, List.intersperse]

theorem intercalate_singleton (sep a : GoString) : sep.intercalate [a] = a := by
  simp [List.intercalate, List.intersperse]

theorem intercalate_push (sep : GoString) (c : UInt8) (seg : GoString) (segs : List GoString) :
    sep.intercalate ((c :: seg) :: segs) = c :: sep.intercalate (seg :: segs) := by
  cases segs with
  | nil => rw [intercalate_singleton, intercalate_singleton]
  | cons s t => rw [intercalate_cons_cons, intercalate_cons_cons]; rfl

/-- A path is its segments joined by slashes. -/
theorem intercalate_splitSlash (x : GoString) : [47].intercalate (splitSlash x) = x := by
  induction x with
  | nil => rfl
  | cons c cs ih =>
    simp only [splitSlash]
    cases h : splitSlash cs with
    | nil => exact absurd h (splitSlash_ne_nil cs)
    | cons seg segs =>
      rw [h] at ih
      simp only []
      split
      · rename_i hc
        have : c = 47 := by simpa using hc
        subst this
        rw [intercalate_cons_cons, ih]
        rfl
      · rw [intercalate_push, ih]

theorem intercalate_append (sep : GoString) (K L : List GoString) (hL : L ≠ []) :
    sep.intercalate (K ++ L) = K.flatMap (· ++ sep) ++ sep.intercalate L := by
  induction K with
  | nil => rfl
  | cons k K ih =>
    cases h : K ++ L with
    | nil => simp [hL] at h
    | cons x xs =>
      rw [List.cons_append, h, intercalate_cons_cons, ← h, ih]
      simp

theorem flatMap_sep (sep : GoString) (K : List GoString) (hK : K ≠ []) :
    K.flatMap (· ++ sep) = sep.intercalate K ++ sep := by
  induction K with
  | nil => exact absurd rfl hK
  | cons k K ih =>
    cases K with
    | nil => simp [intercalate_singleton]
    | cons x xs =>
      rw [List.flatMap_cons, ih (by simp), intercalate_cons_cons]
      simp

theorem mem_of_mem_splitSlash (x : GoString) :
    ∀ seg ∈ splitSlash x, ∀ b ∈ seg, b ∈ x ∧ b ≠ 47 := by
  induction x with
  | nil => intro seg hseg b hb; simp [splitSlash] at hseg; subst hseg; simp at hb
  | cons c cs ih =>
    intro seg hseg b hb
    simp only [splitSlash] at hseg
    cases h : splitSlash cs with
    | nil => exact absurd h (splitSlash_ne_nil cs)
    | cons s0 segs =>
      rw [h] at hseg ih
      simp only [] at hseg
      split at hseg
      · rcases List.mem_cons.mp hseg with rfl | hseg
        · simp at hb
        · have := ih seg hseg b hb
          exact ⟨List.mem_cons_of_mem _ this.1, this.2⟩
      · rename_i hc
        rcases List.mem_cons.mp hseg with rfl | hseg
        · rcases List.mem_cons.mp hb with rfl | hb
          · exact ⟨List.mem_cons_self _ _, by simpa using hc⟩
          · have := ih s0 (List.mem_cons_self _ _) b hb
            exact ⟨List.mem_cons_of_mem _ this.1, this.2⟩
        · have := ih seg (List.mem_cons_of_mem _ hseg) b hb
          exact ⟨List.mem_cons_of_mem _ this.1, this.2⟩

theorem cleanStep_skip (rooted : Bool) (out : List GoString) : cleanStep rooted out [] = out := by
  simp [cleanStep]

theorem cleanStep_keep (rooted : Bool) (out : List GoString) (seg : GoString)
    (h : (seg != [] && seg != go "." && seg != go "..") = true) :
    cleanStep rooted out seg = seg :: out := by
  simp only [Bool.and_eq_true, bne_iff_ne, ne_eq] at h
  have h1 : (seg == []) = false := beq_eq_false_iff_ne.mpr h.1.1
  have h2 : (seg == go ".") = false := beq_eq_false_iff_ne.mpr h.1.2
  have h3 : (seg == go "..") = false := beq_eq_false_iff_ne.mpr h.2
  simp [cleanStep, h1, h2, h3]

theorem foldl_cleanStep_keep (rooted : Bool) (segs : List GoString) :
    ∀ out, (segs.all fun seg => seg != [] && seg != go "." && seg != go "..") = true →
      segs.foldl (cleanStep rooted) out = segs.reverse ++ out := by
  induction segs with
  | nil => intro out _; rfl
  | cons seg segs ih =>
    intro out h
    simp only [List.all_cons, Bool.and_eq_true] at h
    rw [List.foldl_cons, cleanStep_keep rooted out seg (by simpa using h.1), ih _ h.2]
    simp

theorem mem_cleanStep (rooted : Bool) (out : List GoString) (seg x : GoString)
    (h : x ∈ cleanStep rooted out seg) : x ∈ out ∨ x = seg := by
  unfold cleanStep at h
  split at h
  · exact Or.inl h
  · split at h
    · split at h
      · split at h
        · rcases List.mem_cons.mp h with rfl | h
          · exact Or.inr rfl
          · exact Or.inl h
        · exact Or.inl (List.mem_cons_of_mem _ h)
      · split at h
        · simp at h
        · simp only [List.mem_singleton] at h; exact Or.inr h
    · rcases List.mem_cons.mp h with rfl | h
      · exact Or.inr rfl
      · exact Or.inl h

theorem mem_foldl_cleanStep (rooted : Bool) (segs : List GoString) :
    ∀ out x, x ∈ segs.foldl (cleanStep rooted) out → x ∈ out ∨ x ∈ segs := by
  induction segs with
  | nil => intro out x h; exact Or.inl h
  | cons seg segs ih =>
    intro out x h
    rw [List.foldl_cons] at h
    rcases ih _ x h with h | h
    · rcases mem_cleanStep rooted out seg x h with h | rfl
      · exact Or.inl h
      · exact Or.inr (List.mem_cons_self _ _)
    · exact Or.inr (List.mem_cons_of_mem _ h)

/-- The segments of a path unescape when the path does. -/
theorem unescape_intercalate (segs : List GoString) (h : segs ≠ []) :
    (unescape ([47].intercalate segs) .encodePath).isSome
      = segs.all fun seg => (unescape seg .encodePath).isSome := by
  induction segs with
  | nil => exact absurd rfl h
  | cons s segs ih =>
    cases segs with
    | nil => simp [intercalate_singleton]
    | cons t ts =>
      rw [intercalate_cons_cons, List.append_assoc, List.singleton_append, unescape_slash,
        ih (by simp)]
      simp

theorem unescape_segment (x seg : GoString) (hx : (unescape x .encodePath).isSome = true)
    (hseg : seg ∈ splitSlash x) : (unescape seg .encodePath).isSome = true := by
  rw [← intercalate_splitSlash x, unescape_intercalate _ (splitSlash_ne_nil x),
    List.all_eq_true] at hx
  exact hx seg hseg

theorem unescape_flatMap (K : List GoString)
    (h : ∀ seg ∈ K, (unescape seg .encodePath).isSome = true) :
    (unescape (K.flatMap (· ++ [47])) .encodePath).isSome = true := by
  induction K with
  | nil => rfl
  | cons k K ih =>
    rw [List.flatMap_cons, List.append_assoc, List.singleton_append, unescape_slash,
      h k (List.mem_cons_self _ _), ih (fun seg hs => h seg (List.mem_cons_of_mem _ hs))]
    rfl

theorem validEncoded_flatMap (K : List GoString)
    (h : ∀ seg ∈ K, validEncoded seg .encodePath = true) :
    validEncoded (K.flatMap (· ++ [47])) .encodePath = true := by
  induction K with
  | nil => rfl
  | cons k K ih =>
    rw [List.flatMap_cons, validEncoded_append, validEncoded_append,
      h k (List.mem_cons_self _ _), ih (fun seg hs => h seg (List.mem_cons_of_mem _ hs))]
    rfl

theorem validEncoded_segment (x seg : GoString) (hx : validEncoded x .encodePath = true)
    (hseg : seg ∈ splitSlash x) : validEncoded seg .encodePath = true := by
  rw [validEncoded_iff] at hx ⊢
  intro c hc
  exact hx c (mem_of_mem_splitSlash x seg hseg c hc).1

theorem getLast_flatMap (K : List GoString) (hK : K ≠ []) :
    (K.flatMap (· ++ [47])).getLast? = some (47 : UInt8) := by
  rw [flatMap_sep _ K hK]
  simp

/-! ## `URL.JoinPath` with the two elements of the client -/

/-- The path `path.Join` makes of a rooted path, the variant element `/m` and
the element of the catalogue: the segments of the rooted path that `Clean`
keeps, each followed by a slash, and then `m/api/catalogue/items.json`. -/
theorem join_rooted (r m : GoString)
    (hm : (m != [] && m != go "." && m != go "..") = true)
    (hs : splitSlash (m ++ go "//api/catalogue/items.json")
      = [m, [], go "api", go "catalogue", go "items.json"]) :
    Join [47 :: r, 47 :: m, go "/api/catalogue/items.json"]
      = 47 :: (((splitSlash r).foldl (cleanStep true) []).reverse.flatMap (· ++ [47])
          ++ (m ++ go "/api/catalogue/items.json")) := by
  have hj : Join [47 :: r, 47 :: m, go "/api/catalogue/items.json"]
      = Clean ((47 :: r) ++ 47 :: (47 :: (m ++ go "//api/catalogue/items.json"))) := by
    have e : go "//api/catalogue/items.json" = 47 :: go "/api/catalogue/items.json" := by decide
    simp [Join, e]
  have hi : [47].intercalate [m, go "api", go "catalogue", go "items.json"]
      = m ++ go "/api/catalogue/items.json" := by
    rw [intercalate_cons_cons, intercalate_cons_cons, intercalate_cons_cons,
      intercalate_singleton]
    simp [go, EncodeRune]
  have h47 : go "/" = [47] := by decide
  rw [hj]
  simp only [Clean, List.cons_append, List.head?_cons, beq_self_eq_true, if_true, h47]
  rw [if_neg (by simp)]
  rw [← List.cons_append, splitSlash_append, splitSlash_slash, splitSlash_slash, hs,
    List.foldl_append]
  simp only [List.foldl_cons, List.foldl_nil, cleanStep_skip, cleanStep_keep true _ m hm,
    cleanStep_keep true _ (go "api") (by decide),
    cleanStep_keep true _ (go "catalogue") (by decide),
    cleanStep_keep true _ (go "items.json") (by decide),
    List.reverse_cons, List.append_assoc, List.singleton_append, List.cons_append,
    List.nil_append]
  rw [intercalate_append _ _ _ (by simp), hi]

/-- The segments `Clean` keeps of a rooted path, each followed by a slash: the
result is empty or ends in a slash, it unescapes and is validly encoded when the
path is, and it is the path followed by a slash when no segment of the path is
empty, `.` or `..`. -/
theorem kept_segments (r P : GoString)
    (hP : P = ((splitSlash r).foldl (cleanStep true) []).reverse.flatMap (· ++ [47]))
    (hp : (unescape r .encodePath).isSome = true) (hv : validEncoded r .encodePath = true) :
    (P = [] ∨ P.getLast? = some 47) ∧ (unescape P .encodePath).isSome = true
      ∧ validEncoded P .encodePath = true
      ∧ ((splitSlash r).all (fun seg => seg != [] && seg != go "." && seg != go "..") = true
          → P = r ++ [47]) := by
  have hmem : ∀ seg ∈ ((splitSlash r).foldl (cleanStep true) []).reverse, seg ∈ splitSlash r := by
    intro seg hseg
    rcases mem_foldl_cleanStep true (splitSlash r) [] seg (List.mem_reverse.mp hseg) with h | h
    · simp at h
    · exact h
  refine ⟨?_, ?_, ?_, ?_⟩
  · by_cases hK : ((splitSlash r).foldl (cleanStep true) []).reverse = []
    · left; rw [hP, hK]; rfl
    · right; rw [hP]; exact getLast_flatMap _ hK
  · rw [hP]
    exact unescape_flatMap _ (fun seg hseg => unescape_segment r seg hp (hmem seg hseg))
  · rw [hP]
    exact validEncoded_flatMap _ (fun seg hseg => validEncoded_segment r seg hv (hmem seg hseg))
  · intro hk
    rw [hP, foldl_cleanStep_keep true _ [] hk, List.append_nil, List.reverse_reverse,
      flatMap_sep _ _ (splitSlash_ne_nil r), intercalate_splitSlash]

theorem getLast_cons_some (a x : UInt8) (l : GoString) (h : l.getLast? = some x) :
    (a :: l).getLast? = some x := by
  cases l with
  | nil => simp at h
  | cons b l => rw [List.getLast?_cons_cons]; exact h

theorem getLast_append_some (a l : GoString) (x : UInt8) (h : l.getLast? = some x) :
    (a ++ l).getLast? = some x := by
  induction a with
  | nil => exact h
  | cons b a ih => exact getLast_cons_some b x _ ih

theorem last_element_no_slash (x m : GoString) :
    ([x, 47 :: m, go "/api/catalogue/items.json"].getLast?.bind List.getLast?
      == some (47 : UInt8)) = false := by
  have : (go "/api/catalogue/items.json").getLast? = some 110 := by decide
  rw [List.getLast?_cons_cons, List.getLast?_cons_cons, List.getLast?_singleton,
    Option.some_bind, this]
  decide

/-- What `JoinPath` does with the two elements of the client, `/m` and
`/api/catalogue/items.json`: the path it sets is `P0` followed by
`m/api/catalogue/items.json`, where `P0` is empty or ends in a slash, is the
escaped path of the URL followed by a slash when that path is kept, and is not
empty when the escaped path is rooted. -/
theorem joinPath_variant (u : URL) (m : GoString)
    (hm : (m != [] && m != go "." && m != go "..") = true)
    (hs : splitSlash (m ++ go "//api/catalogue/items.json")
      = [m, [], go "api", go "catalogue", go "items.json"]) :
    ∃ P0 : GoString, (P0 = [] ∨ P0.getLast? = some 47)
      ∧ (unescape P0 .encodePath).isSome = true ∧ validEncoded P0 .encodePath = true
      ∧ (keptByJoin u.EscapedPath = true →
          P0 = if u.EscapedPath = [] then [] else u.EscapedPath ++ [47])
      ∧ (u.EscapedPath.head? = some 47 → P0 ≠ [])
      ∧ u.JoinPath [47 :: m, go "/api/catalogue/items.json"]
          = u.setPath (P0 ++ (m ++ go "/api/catalogue/items.json")) := by
  have hp := escapedPath_unescapes u
  have hv := escapedPath_valid u
  unfold URL.JoinPath
  generalize u.EscapedPath = e0 at hp hv ⊢
  match e0, hp, hv with
  | [], _, _ =>
    refine ⟨[], Or.inl rfl, by rfl, by rfl, fun _ => by simp, fun h => by simp at h, ?_⟩
    have h1 : ((([] : GoString).head? != some 47) = true) := by decide
    simp only [h1, if_true, last_element_no_slash, Bool.false_and, Bool.false_eq_true, if_false,
      join_rooted [] m hm hs, List.drop_succ_cons, List.drop_zero]
    rfl
  | c :: r, hp, hv =>
    by_cases hc : c = 47
    · subst hc
      have hp' : (unescape r .encodePath).isSome = true := by
        rw [unescape_cons_of_ne 47 r (by decide)] at hp
        cases h : unescape r .encodePath <;> simp [h] at hp ⊢
      have hv' : validEncoded r .encodePath = true := by
        have := validEncoded_append [47] r
        rw [List.singleton_append, hv] at this
        simp only [Bool.true_eq, Bool.and_eq_true] at this
        exact this.2
      have k := kept_segments r _ rfl hp' hv'
      refine ⟨47 :: ((splitSlash r).foldl (cleanStep true) []).reverse.flatMap (· ++ [47]),
        Or.inr ?_, ?_, ?_, ?_, fun _ => by simp, ?_⟩
      · rcases k.1 with h | h
        · rw [h]; rfl
        · exact getLast_cons_some _ _ _ h
      · rw [unescape_cons_of_ne 47 _ (by decide)]
        cases h : unescape (((splitSlash r).foldl (cleanStep true) []).reverse.flatMap
          (· ++ [47])) .encodePath with
        | none => have := k.2.1; rw [h] at this; cases this
        | some q => rfl
      · have := validEncoded_append [47]
          (((splitSlash r).foldl (cleanStep true) []).reverse.flatMap (· ++ [47]))
        rw [List.singleton_append] at this
        rw [this, k.2.2.1]
        rfl
      · intro hk
        have hk' : (splitSlash r).all
            (fun seg => seg != [] && seg != go "." && seg != go "..") = true := by
          simpa [keptByJoin] using hk
        rw [k.2.2.2 hk', if_neg (by simp)]
        rfl
      · have h1 : (((47 :: r : GoString).head? != some 47) = false) := by simp
        simp only [h1, Bool.false_eq_true, if_false, last_element_no_slash, Bool.false_and,
          join_rooted r m hm hs]
        rfl
    · have k := kept_segments (c :: r) _ rfl hp hv
      refine ⟨((splitSlash (c :: r)).foldl (cleanStep true) []).reverse.flatMap (· ++ [47]),
        k.1, k.2.1, k.2.2.1, ?_, fun h => absurd (by simpa using h) hc, ?_⟩
      · intro hk
        have hk' : (splitSlash (c :: r)).all
            (fun seg => seg != [] && seg != go "." && seg != go "..") = true := by
          simpa [keptByJoin, hc] using hk
        rw [k.2.2.2 hk', if_neg (by simp)]
      · have h1 : (((c :: r : GoString).head? != some 47) = true) := by simpa using hc
        simp only [h1, if_true, last_element_no_slash, Bool.false_and, Bool.false_eq_true,
          if_false, join_rooted (c :: r) m hm hs, List.drop_succ_cons, List.drop_zero]

/-! ## The URL with the joined path, as a string -/

/-- The URL `setPath` yields for an escaped path that unescapes to a path other
than `*`: the other fields are kept, and the escaped path of the URL is the path
that was set. -/
theorem setPath_spec (u : URL) (p q : GoString) (hq : unescape p .encodePath = some q)
    (hv : validEncoded p .encodePath = true) (hstar : q ≠ go "*") :
    (u.setPath p).Scheme = u.Scheme ∧ (u.setPath p).Opaque = u.Opaque
      ∧ (u.setPath p).User = u.User ∧ (u.setPath p).Host = u.Host
      ∧ (u.setPath p).OmitHost = u.OmitHost ∧ (u.setPath p).ForceQuery = u.ForceQuery
      ∧ (u.setPath p).RawQuery = u.RawQuery ∧ (u.setPath p).Fragment = u.Fragment
      ∧ (u.setPath p).Path = q ∧ (u.setPath p).EscapedPath = p := by
  have hs : (q == go "*") = false := beq_eq_false_iff_ne.mpr hstar
  unfold URL.setPath
  rw [hq]
  simp only []
  split
  · rename_i he
    have he' : escape q .encodePath = p := (show p = escape q .encodePath by simpa using he).symm
    refine ⟨rfl, rfl, rfl, rfl, rfl, rfl, rfl, rfl, rfl, ?_⟩
    simp [URL.EscapedPath, hs, he']
  · rename_i he
    have hne : p ≠ [] := by
      intro h
      subst h
      simp only [unescape, Option.some.injEq] at hq
      subst hq
      exact he (by decide)
    refine ⟨rfl, rfl, rfl, rfl, rfl, rfl, rfl, rfl, rfl, ?_⟩
    simp [URL.EscapedPath, hne, hv, hq]

theorem exists_prefix (B P0 lit RQ : GoString) (Qc : Bool)
    (h : (B ++ P0).getLast? = some 47) :
    ∃ pre : GoString,
      (if Qc = true then B ++ (P0 ++ lit) ++ go "?" ++ RQ else B ++ (P0 ++ lit))
        = pre ++ [47] ++ lit ++ (if Qc = true then go "?" ++ RQ else []) := by
  have e : (B ++ P0).dropLast ++ [47] = B ++ P0 := List.dropLast_append_getLast? _ h
  refine ⟨(B ++ P0).dropLast, ?_⟩
  rw [e]
  cases Qc <;> simp [List.append_assoc]

/-- The string of a URL without opaque part and fragment whose escaped path is
`P0 ++ lit`, with `P0` empty or ending in a slash and `lit` relative, when the
URL has a host or `P0` is not empty: `lit` follows a slash, and is followed by
the query of the URL. -/
theorem string_with_host (u v : URL) (q P0 lit : GoString)
    (hf : v.Scheme = u.Scheme ∧ v.Opaque = u.Opaque ∧ v.User = u.User ∧ v.Host = u.Host
      ∧ v.OmitHost = u.OmitHost ∧ v.ForceQuery = u.ForceQuery ∧ v.RawQuery = u.RawQuery
      ∧ v.Fragment = u.Fragment ∧ v.Path = q ∧ v.EscapedPath = P0 ++ lit)
    (hO : u.Opaque = []) (hF : u.Fragment = []) (hH : u.Host ≠ [] ∨ P0 ≠ [])
    (hP0 : P0 = [] ∨ P0.getLast? = some 47)
    (hlit : lit ≠ [] ∧ lit.head? ≠ some 47) :
    ∃ pre : GoString, v.String = pre ++ [47] ++ lit
      ++ (if (u.ForceQuery || u.RawQuery != []) = true then go "?" ++ u.RawQuery else []) := by
  obtain ⟨h1, h2, h3, h4, h5, h6, h7, h8, h9, h10⟩ := hf
  have h47 : go "/" = [47] := by decide
  by_cases hHost : u.Host = []
  · have hP : P0.getLast? = some 47 := by
      rcases hH with h | h
      · exact absurd hHost h
      · rcases hP0 with h' | h'
        · exact absurd h' h
        · exact h'
    unfold URL.String
    simp only [h1, h2, h3, h4, h5, h6, h7, h8, h10, hO, hF, hHost, bne_self_eq_false,
      beq_self_eq_true, Bool.false_eq_true, if_false, Bool.and_false, h47]
    exact exists_prefix _ P0 lit _ _ (getLast_append_some _ _ _ hP)
  · have hH' : (u.Host != []) = true := by simpa using hHost
    have hH'' : (u.Host == []) = false := by simpa using hHost
    unfold URL.String
    simp only [h1, h2, h3, h4, h5, h6, h7, h8, h10, hO, hF, hH', hH'', bne_self_eq_false,
      Bool.false_eq_true, if_false, Bool.or_true, Bool.true_or, Bool.and_false, Bool.false_and,
      if_true, Bool.and_true, h47]
    by_cases hc : (P0 ++ lit != [] && (P0 ++ lit).head? != some 47) = true
    · have hl : ∀ X : GoString, ((X ++ [47]).length == 0) = false := by intro X; simp
      simp only [hc, if_true, hl, Bool.false_and, Bool.false_eq_true, if_false]
      refine exists_prefix _ P0 lit _ _ ?_
      rcases hP0 with rfl | h
      · simp
      · exact getLast_append_some _ _ _ h
    · have hne : P0 ++ lit ≠ [] := by simp [hlit.1]
      have hhd : (P0 ++ lit).head? = some 47 := by
        simp only [Bool.and_eq_true, bne_iff_ne, ne_eq, not_and, not_not] at hc
        exact hc hne
      have hP : P0.getLast? = some 47 := by
        rcases hP0 with rfl | h
        · rw [List.nil_append] at hhd; exact absurd hhd hlit.2
        · exact h
      have htw : (List.takeWhile (fun x => x != 47) (P0 ++ lit)).contains 58 = false := by
        cases hpl : P0 ++ lit with
        | nil => rfl
        | cons c t =>
          rw [hpl] at hhd
          simp only [List.head?_cons, Option.some.injEq] at hhd
          subst hhd
          simp
      simp only [hc, Bool.false_eq_true, if_false, htw, Bool.and_false]
      exact exists_prefix _ P0 lit _ _ (getLast_append_some _ _ _ hP)

theorem takeWhile_append_slash (a b : GoString) :
    (a ++ 47 :: b).takeWhile (· != 47) = a.takeWhile (· != 47) := by
  induction a with
  | nil => simp
  | cons c a ih =>
    rw [List.cons_append, List.takeWhile_cons, List.takeWhile_cons, ih]

/-- The string of a URL without opaque part, query and fragment, after a
relative path `lit` has been joined to its escaped path, when that path is kept:
the string of the URL, a slash, and `lit`. -/
theorem string_kept (u v : URL) (q lit : GoString)
    (hf : v.Scheme = u.Scheme ∧ v.Opaque = u.Opaque ∧ v.User = u.User ∧ v.Host = u.Host
      ∧ v.OmitHost = u.OmitHost ∧ v.ForceQuery = u.ForceQuery ∧ v.RawQuery = u.RawQuery
      ∧ v.Fragment = u.Fragment ∧ v.Path = q
      ∧ v.EscapedPath = (if u.EscapedPath = [] then [] else u.EscapedPath ++ [47]) ++ lit)
    (hq : q ≠ []) (hO : u.Opaque = []) (hF : u.Fragment = []) (hQ : u.RawQuery = [])
    (hFQ : u.ForceQuery = false) (hHP : u.Host ≠ [] ∨ u.Path ≠ [])
    (hlit : lit ≠ [] ∧ lit.head? ≠ some 47 ∧ (lit.takeWhile (· != 47)).contains 58 = false) :
    v.String = u.String ++ [47] ++ lit := by
  obtain ⟨h1, h2, h3, h4, h5, h6, h7, h8, h9, h10⟩ := hf
  have h47 : go "/" = [47] := by decide
  have hq' : (q != []) = true := by simpa using hq
  have hl : ∀ X : GoString, ((X ++ [47]).length == 0) = false := by intro X; simp
  by_cases hP : u.Path = []
  · have hH : u.Host ≠ [] := by
      rcases hHP with h | h
      · exact h
      · exact absurd hP h
    have hH' : (u.Host != []) = true := by simpa using hH
    have hH'' : (u.Host == []) = false := by simpa using hH
    have he : u.EscapedPath = [] := (escapedPath_eq_nil_iff u).mpr hP
    rw [he, if_pos rfl, List.nil_append] at h10
    have hl1 : (lit != []) = true := by simpa using hlit.1
    have hl2 : (lit.head? != some 47) = true := by simpa using hlit.2.1
    unfold URL.String
    simp only [h1, h2, h3, h4, h5, h6, h7, h8, h9, h10, hO, hF, hQ, hFQ, hH', hH'', he, hP,
      bne_self_eq_false, Bool.false_eq_true, if_false, Bool.or_true, Bool.true_or,
      Bool.and_false, Bool.false_and, if_true, Bool.and_true, h47, hl1, hl2, hl, hlit.2.2,
      Bool.or_false, Bool.and_self, List.append_nil, Bool.true_and, List.head?_nil,
      List.takeWhile_nil, List.contains_nil]
  · have hP' : (u.Path != []) = true := by simpa using hP
    have he : u.EscapedPath ≠ [] := fun h => hP ((escapedPath_eq_nil_iff u).mp h)
    have he' : (u.EscapedPath != []) = true := by simpa using he
    rw [if_neg he, List.append_assoc, List.singleton_append] at h10
    have e1 : (u.EscapedPath ++ 47 :: lit != []) = true := by simp
    have e2 : (u.EscapedPath ++ 47 :: lit).head? = u.EscapedPath.head? := by
      rw [List.head?_append_of_ne_nil _ he]
    have e3 : (u.EscapedPath ++ 47 :: lit).takeWhile (· != 47)
        = u.EscapedPath.takeWhile (· != 47) := takeWhile_append_slash _ _
    unfold URL.String
    simp only [h1, h2, h3, h4, h5, h6, h7, h8, h9, h10, hO, hF, hQ, hFQ, hP', hq', he', e1, e2,
      e3, bne_self_eq_false, Bool.false_eq_true, if_false, Bool.or_true, Bool.true_or,
      Bool.and_false, Bool.false_and, if_true, Bool.and_true, h47, Bool.or_false,
      Bool.true_and, List.append_assoc, List.singleton_append]

/-- The URL the client makes of a base URL `u` and the variant segment `m`: the
fields of `u` other than the path are kept, and the escaped path is `P0`
followed by `m/api/catalogue/items.json`, where `P0` is empty or ends in a
slash, is the escaped path of `u` followed by a slash when that path is kept,
and is not empty when the escaped path of `u` is rooted. -/
theorem joined_url (u : URL) (m : GoString)
    (hm : (m != [] && m != go "." && m != go "..") = true)
    (hs : splitSlash (m ++ go "//api/catalogue/items.json")
      = [m, [], go "api", go "catalogue", go "items.json"])
    (hu : unescape (m ++ go "/api/catalogue/items.json") .encodePath
      = some (m ++ go "/api/catalogue/items.json"))
    (hv : validEncoded (m ++ go "/api/catalogue/items.json") .encodePath = true) :
    ∃ P0 q : GoString, (P0 = [] ∨ P0.getLast? = some 47)
      ∧ (keptByJoin u.EscapedPath = true →
          P0 = if u.EscapedPath = [] then [] else u.EscapedPath ++ [47])
      ∧ (u.EscapedPath.head? = some 47 → P0 ≠ [])
      ∧ q ≠ []
      ∧ ((u.JoinPath [47 :: m, go "/api/catalogue/items.json"]).Scheme = u.Scheme
        ∧ (u.JoinPath [47 :: m, go "/api/catalogue/items.json"]).Opaque = u.Opaque
        ∧ (u.JoinPath [47 :: m, go "/api/catalogue/items.json"]).User = u.User
        ∧ (u.JoinPath [47 :: m, go "/api/catalogue/items.json"]).Host = u.Host
        ∧ (u.JoinPath [47 :: m, go "/api/catalogue/items.json"]).OmitHost = u.OmitHost
        ∧ (u.JoinPath [47 :: m, go "/api/catalogue/items.json"]).ForceQuery = u.ForceQuery
        ∧ (u.JoinPath [47 :: m, go "/api/catalogue/items.json"]).RawQuery = u.RawQuery
        ∧ (u.JoinPath [47 :: m, go "/api/catalogue/items.json"]).Fragment = u.Fragment
        ∧ (u.JoinPath [47 :: m, go "/api/catalogue/items.json"]).Path = q
        ∧ (u.JoinPath [47 :: m, go "/api/catalogue/items.json"]).EscapedPath
            = P0 ++ (m ++ go "/api/catalogue/items.json")) := by
  obtain ⟨P0, h1, h2, h3, h4, h4', h5⟩ := joinPath_variant u m hm hs
  cases hP : unescape P0 .encodePath with
  | none => rw [hP] at h2; cases h2
  | some P0' =>
    have hq : unescape (P0 ++ (m ++ go "/api/catalogue/items.json")) .encodePath
        = some (P0' ++ (m ++ go "/api/catalogue/items.json")) := by
      rw [unescape_append _ _ _ hP, hu]; rfl
    have hmne : m ≠ [] := by
      simp only [Bool.and_eq_true, bne_iff_ne, ne_eq] at hm
      exact hm.1.1
    have hlen : 2 ≤ (P0' ++ (m ++ go "/api/catalogue/items.json")).length := by
      have : (go "/api/catalogue/items.json").length = 25 := by decide
      simp only [List.length_append, this]
      omega
    have hstar : P0' ++ (m ++ go "/api/catalogue/items.json") ≠ go "*" := by
      intro h
      rw [h] at hlen
      exact absurd hlen (by decide)
    have hne : P0' ++ (m ++ go "/api/catalogue/items.json") ≠ [] := by
      intro h
      rw [h] at hlen
      exact absurd hlen (by decide)
    have hval : validEncoded (P0 ++ (m ++ go "/api/catalogue/items.json")) .encodePath = true := by
      rw [validEncoded_append, h3, hv]; rfl
    refine ⟨P0, _, h1, h4, h4', hne, ?_⟩
    rw [h5]
    exact setPath_spec u _ _ hq hval hstar

theorem variant_facts :
    ((go "m=itemdb_rs" != [] && go "m=itemdb_rs" != go "." && go "m=itemdb_rs" != go "..") = true
      ∧ splitSlash (go "m=itemdb_rs" ++ go "//api/catalogue/items.json")
          = [go "m=itemdb_rs", [], go "api", go "catalogue", go "items.json"]
      ∧ unescape (go "m=itemdb_rs" ++ go "/api/catalogue/items.json") .encodePath
          = some (go "m=itemdb_rs" ++ go "/api/catalogue/items.json")
      ∧ validEncoded (go "m=itemdb_rs" ++ go "/api/catalogue/items.json") .encodePath = true)
    ∧ ((go "m=itemdb_oldschool" != [] && go "m=itemdb_oldschool" != go "."
          && go "m=itemdb_oldschool" != go "..") = true
      ∧ splitSlash (go "m=itemdb_oldschool" ++ go "//api/catalogue/items.json")
          = [go "m=itemdb_oldschool", [], go "api", go "catalogue", go "items.json"]
      ∧ unescape (go "m=itemdb_oldschool" ++ go "/api/catalogue/items.json") .encodePath
          = some (go "m=itemdb_oldschool" ++ go "/api/catalogue/items.json")
      ∧ validEncoded (go "m=itemdb_oldschool" ++ go "/api/catalogue/items.json") .encodePath
          = true) := by
  decide

theorem variant_relative :
    (go "m=itemdb_rs" ++ go "/api/catalogue/items.json" ≠ []
      ∧ (go "m=itemdb_rs" ++ go "/api/catalogue/items.json").head? ≠ some 47
      ∧ ((go "m=itemdb_rs" ++ go "/api/catalogue/items.json").takeWhile (· != 47)).contains 58
          = false)
    ∧ (go "m=itemdb_oldschool" ++ go "/api/catalogue/items.json" ≠ []
      ∧ (go "m=itemdb_oldschool" ++ go "/api/catalogue/items.json").head? ≠ some 47
      ∧ ((go "m=itemdb_oldschool" ++ go "/api/catalogue/items.json").takeWhile
          (· != 47)).contains 58 = false) := by
  decide

/-- The URL of a request to the variant segment `m`, for a base URL with a host
or a rooted path and without opaque part and fragment: the segment and the path
of the catalogue follow a slash and are followed by the query of the base
URL. -/
theorem string_of_joined (u : URL) (m : GoString)
    (hm : (m != [] && m != go "." && m != go "..") = true)
    (hs : splitSlash (m ++ go "//api/catalogue/items.json")
      = [m, [], go "api", go "catalogue", go "items.json"])
    (hu : unescape (m ++ go "/api/catalogue/items.json") .encodePath
      = some (m ++ go "/api/catalogue/items.json"))
    (hv : validEncoded (m ++ go "/api/catalogue/items.json") .encodePath = true)
    (hr : m ++ go "/api/catalogue/items.json" ≠ []
      ∧ (m ++ go "/api/catalogue/items.json").head? ≠ some 47)
    (hO : u.Opaque = []) (hF : u.Fragment = [])
    (hH : u.Host ≠ [] ∨ u.EscapedPath.head? = some 47) :
    ∃ pre : GoString, (u.JoinPath [47 :: m, go "/api/catalogue/items.json"]).String
      = pre ++ [47] ++ (m ++ go "/api/catalogue/items.json")
        ++ (if (u.ForceQuery || u.RawQuery != []) = true then go "?" ++ u.RawQuery else []) := by
  obtain ⟨P0, q, h1, _, h3, _, hf⟩ := joined_url u m hm hs hu hv
  exact string_with_host u _ q P0 _ hf hO hF (hH.imp id h3) h1 hr

/-- The URL of a request to the variant segment `m`, for a base URL without
opaque part, query and fragment whose path is kept: the base URL, a slash, the
segment and the path of the catalogue. -/
theorem string_of_joined_kept (u : URL) (m : GoString)
    (hm : (m != [] && m != go "." && m != go "..") = true)
    (hs : splitSlash (m ++ go "//api/catalogue/items.json")
      = [m, [], go "api", go "catalogue", go "items.json"])
    (hu : unescape (m ++ go "/api/catalogue/items.json") .encodePath
      = some (m ++ go "/api/catalogue/items.json"))
    (hv : validEncoded (m ++ go "/api/catalogue/items.json") .encodePath = true)
    (hr : m ++ go "/api/catalogue/items.json" ≠ []
      ∧ (m ++ go "/api/catalogue/items.json").head? ≠ some 47
      ∧ ((m ++ go "/api/catalogue/items.json").takeWhile (· != 47)).contains 58 = false)
    (hO : u.Opaque = []) (hF : u.Fragment = []) (hQ : u.RawQuery = [])
    (hFQ : u.ForceQuery = false) (hHP : u.Host ≠ [] ∨ u.Path ≠ [])
    (hk : keptByJoin u.EscapedPath = true) :
    (u.JoinPath [47 :: m, go "/api/catalogue/items.json"]).String
      = u.String ++ [47] ++ (m ++ go "/api/catalogue/items.json") := by
  obtain ⟨P0, q, _, h2, _, h3, hf⟩ := joined_url u m hm hs hu hv
  rw [h2 hk] at hf
  exact string_kept u _ q _ hf h3 hO hF hQ hFQ hHP hr
/-! ## The claims on validation and on the request -/

/-- C5 (amended): with a valid gameType and an itemAlpha of exactly one byte
`b`, the call is rejected with "invalid character", whatever itemCategory and
page are, when `b` is outside 97-122 and is not 35; and when `b` is in 97-122
or is 35 the call is rejected neither with the alpha-length error nor with the
invalid-character error. -/
theorem single_byte_character_check (c : Client) (gameType : GoString) (b : UInt8)
    (itemCategory page : Int) (hg : gameType = go "rs3" ∨ gameType = go "osrs") :
    (¬ ((97 ≤ b.toNat ∧ b.toNat ≤ 122) ∨ b.toNat = 35) →
      (c.ListGrandExchangeItems gameType [b] itemCategory page).rejectedWith
        "invalid character") ∧
    (((97 ≤ b.toNat ∧ b.toNat ≤ 122) ∨ b.toNat = 35) →
      ¬ (c.ListGrandExchangeItems gameType [b] itemCategory page).rejectedWith
          "itemAlpha should be one character a-z or #" ∧
      ¬ (c.ListGrandExchangeItems gameType [b] itemCategory page).rejectedWith
          "invalid character") := by
  refine ⟨call_of_bad_byte c gameType b itemCategory page hg, fun hb => ?_⟩
  by_cases hp : page < 1
  · have h := call_of_bad_page c gameType b itemCategory page hg hb hp
    constructor
    · intro h'
      have := h.2.symm.trans h'.2
      simp only [Outcome.fail.injEq, GoError.errorString.injEq] at this
      exact absurd this (by decide)
    · intro h'
      have := h.2.symm.trans h'.2
      simp only [Outcome.fail.injEq, GoError.errorString.injEq] at this
      exact absurd this (by decide)
  · have h := requests_of_valid c gameType b itemCategory page hg hb (by omega)
    constructor
    · intro h'; rw [h'.1] at h; exact absurd h (by simp)
    · intro h'; rw [h'.1] at h; exact absurd h (by simp)

/-- The character rule at the byte `A`. -/
theorem single_byte_character_check_witness :
    (go "rs3" = go "rs3" ∨ go "rs3" = go "osrs") ∧
    ((¬ ((97 ≤ (65 : UInt8).toNat ∧ (65 : UInt8).toNat ≤ 122) ∨ (65 : UInt8).toNat = 35) →
      ((NewClient offline none).ListGrandExchangeItems (go "rs3") [65] 1 1).rejectedWith
        "invalid character") ∧
    (((97 ≤ (65 : UInt8).toNat ∧ (65 : UInt8).toNat ≤ 122) ∨ (65 : UInt8).toNat = 35) →
      ¬ ((NewClient offline none).ListGrandExchangeItems (go "rs3") [65] 1 1).rejectedWith
          "itemAlpha should be one character a-z or #" ∧
      ¬ ((NewClient offline none).ListGrandExchangeItems (go "rs3") [65] 1 1).rejectedWith
          "invalid character")) :=
  ⟨Or.inl rfl,
    single_byte_character_check (NewClient offline none) (go "rs3") 65 1 1 (Or.inl rfl)⟩

/-- C5, as stated, fails: the single code point U+00E9 is outside a-z and is not
`#`, but its two bytes are rejected with the alpha-length error, not with
"invalid character". -/
theorem multibyte_rune_not_invalid_character :
    ¬ ((97 ≤ (Char.ofNat 0xE9).toNat ∧ (Char.ofNat 0xE9).toNat ≤ 122)
        ∨ (Char.ofNat 0xE9).toNat = 35) ∧
    ((NewClient offline none).ListGrandExchangeItems (go "rs3")
        (EncodeRune (Char.ofNat 0xE9)) 1 1).rejectedWith
      "itemAlpha should be one character a-z or #" ∧
    ¬ ((NewClient offline none).ListGrandExchangeItems (go "rs3")
        (EncodeRune (Char.ofNat 0xE9)) 1 1).rejectedWith "invalid character" := by
  decide

/-- C8: with a valid gameType and a valid one-character itemAlpha the call is
rejected with the page error "page must be > 1" exactly when page < 1; for
every page >= 1, page = 1 included, validation passes and one request is made. -/
theorem page_rejected_iff_below_one (c : Client) (gameType : GoString) (b : UInt8)
    (itemCategory page : Int) (hg : gameType = go "rs3" ∨ gameType = go "osrs")
    (hb : (97 ≤ b.toNat ∧ b.toNat ≤ 122) ∨ b.toNat = 35) :
    ((c.ListGrandExchangeItems gameType [b] itemCategory page).rejectedWith "page must be > 1"
      ↔ page < 1) ∧
    (1 ≤ page → (c.ListGrandExchangeItems gameType [b] itemCategory page).requests.length = 1) := by
  refine ⟨⟨fun h => ?_, call_of_bad_page c gameType b itemCategory page hg hb⟩, fun hp => ?_⟩
  · by_contra hp
    have h' := requests_of_valid c gameType b itemCategory page hg hb (by omega)
    rw [h.1] at h'
    exact absurd h' (by simp)
  · rw [requests_of_valid c gameType b itemCategory page hg hb hp]
    rfl

/-- The page rule at page 1. -/
theorem page_rejected_iff_below_one_witness :
    (go "rs3" = go "rs3" ∨ go "rs3" = go "osrs") ∧
    ((97 ≤ (97 : UInt8).toNat ∧ (97 : UInt8).toNat ≤ 122) ∨ (97 : UInt8).toNat = 35) ∧
    ((((NewClient offline none).ListGrandExchangeItems (go "rs3") [97] 1 1).rejectedWith
        "page must be > 1" ↔ (1 : Int) < 1) ∧
     ((1 : Int) ≤ 1 →
      ((NewClient offline none).ListGrandExchangeItems (go "rs3") [97] 1 1).requests.length = 1)) :=
  ⟨Or.inl rfl, by decide,
    page_rejected_iff_below_one (NewClient offline none) (go "rs3") 97 1 1 (Or.inl rfl)
      (by decide)⟩

/-- C4 (amended): for every input that passes validation and every client whose
base URL has no opaque part, no query and no fragment, has a host or a path, and
has a path that `JoinPath` keeps as it is (no empty, `.` or `..` segment, hence
no trailing slash), the URL passed to the transport is
`{baseURL}/m=itemdb_{rs|oldschool}/api/catalogue/items.json?alpha={itemAlpha}&category={category}&page={page}`:
the query parameters are in the order of their keys (alpha, category, page) and
their values are form-encoded (the decimal forms are left as they are). -/
theorem request_url_has_sorted_query (c : Client) (gameType : GoString) (b : UInt8)
    (itemCategory page : Int) (hg : gameType = go "rs3" ∨ gameType = go "osrs")
    (hb : (97 ≤ b.toNat ∧ b.toNat ≤ 122) ∨ b.toNat = 35) (hp : 1 ≤ page)
    (hopq : c.BaseURL.Opaque = [])
    (hquery : c.BaseURL.RawQuery = [] ∧ c.BaseURL.ForceQuery = false)
    (hfragment : c.BaseURL.Fragment = [])
    (hbase : c.BaseURL.Host ≠ [] ∨ c.BaseURL.Path ≠ [])
    (hpath : keptByJoin c.BaseURL.EscapedPath = true) :
    (c.ListGrandExchangeItems gameType [b] itemCategory page).requests =
      [c.BaseURL.String
        ++ (if gameType = go "rs3" then go "/m=itemdb_rs" else go "/m=itemdb_oldschool")
        ++ go "/api/catalogue/items.json"
        ++ go "?alpha=" ++ QueryEscape [b]
        ++ go "&category=" ++ FormatInt (if gameType = go "rs3" then itemCategory else 1)
        ++ go "&page=" ++ FormatInt page] := by
  have k1 : go "/m=itemdb_" ++ go "oldschool" = 47 :: go "m=itemdb_oldschool" := by decide
  have k2 : go "/m=itemdb_" ++ go "rs" = 47 :: go "m=itemdb_rs" := by decide
  rw [requests_of_valid c gameType b itemCategory page hg hb hp, encode_query,
    queryEscape_formatInt, queryEscape_formatInt]
  rcases hg with rfl | rfl
  · have e : (go "rs3" == go "rs3") = true := by decide
    simp only [e, if_true, k2]
    rw [string_of_joined_kept c.BaseURL (go "m=itemdb_rs") variant_facts.1.1 variant_facts.1.2.1
      variant_facts.1.2.2.1 variant_facts.1.2.2.2 variant_relative.1 hopq hfragment
      hquery.1 hquery.2 hbase hpath]
    simp [go, EncodeRune]
  · have e : (go "osrs" == go "rs3") = false := by decide
    have e' : ¬ (go "osrs" = go "rs3") := by decide
    simp only [e, Bool.false_eq_true, if_false, e', k1]
    rw [string_of_joined_kept c.BaseURL (go "m=itemdb_oldschool") variant_facts.2.1
      variant_facts.2.2.1 variant_facts.2.2.2.1 variant_facts.2.2.2.2 variant_relative.2 hopq
      hfragment hquery.1 hquery.2 hbase hpath]
    simp [go, EncodeRune]

/-- The request of the client with the base URL "http://h/x" for "rs3", "a", 1,
1, and the base URL itself. -/
theorem request_url_has_sorted_query_witness :
    (go "rs3" = go "rs3" ∨ go "rs3" = go "osrs") ∧
    ((97 ≤ (97 : UInt8).toNat ∧ (97 : UInt8).toNat ≤ 122) ∨ (97 : UInt8).toNat = 35) ∧
    (1 : Int) ≤ 1 ∧
    (Client.mk offline { Scheme := go "http", Host := go "h", Path := go "/x" }
      userAgent).BaseURL.String = go "http://h/x" ∧
    ((Client.mk offline { Scheme := go "http", Host := go "h", Path := go "/x" }
        userAgent).ListGrandExchangeItems (go "rs3") [97] 1 1).requests =
      [go "http://h/x/m=itemdb_rs/api/catalogue/items.json?alpha=a&category=1&page=1"] :=
  ⟨Or.inl rfl, by decide, by decide, by decide,
    (request_url_has_sorted_query
      (Client.mk offline { Scheme := go "http", Host := go "h", Path := go "/x" } userAgent)
      (go "rs3") 97 1 1 (Or.inl rfl)
      (by decide) (by decide) (by decide) (by decide) (by decide) (by decide)
      (by decide)).trans (by decide)⟩

/-- C4, as stated, fails.  For gameType "rs3", itemAlpha "a", itemCategory 1 and
page 1 the default client requests a URL whose query string is
"alpha=a&category=1&page=1", not "category=1&alpha=a&page=1".  And the URL is
not the base URL followed by "/m=itemdb_rs/..." when the path of the base URL
ends in a slash ("http://h/x/"), when the base URL has a query ("http://h?k=v")
or a fragment ("http://h#f"), when it is opaque ("mailto:x"), or when it has
neither host nor path ("http:"). -/
theorem query_not_in_claimed_order :
    ((NewClient offline none).ListGrandExchangeItems (go "rs3") (go "a") 1 1).requests =
      [go ("https://secure.runescape.com/m=itemdb_rs/api/catalogue/items.json"
        ++ "?alpha=a&category=1&page=1")] ∧
    ((NewClient offline none).ListGrandExchangeItems (go "rs3") (go "a") 1 1).requests ≠
      [go ("https://secure.runescape.com/m=itemdb_rs/api/catalogue/items.json"
        ++ "?category=1&alpha=a&page=1")] ∧
    (({ Scheme := go "http", Host := go "h", Path := go "/x/" } : URL).String = go "http://h/x/" ∧
      ((Client.mk offline { Scheme := go "http", Host := go "h", Path := go "/x/" }
          userAgent).ListGrandExchangeItems (go "rs3") (go "a") 1 1).requests =
        [go "http://h/x/m=itemdb_rs/api/catalogue/items.json?alpha=a&category=1&page=1"]) ∧
    (({ Scheme := go "http", Host := go "h", RawQuery := go "k=v" } : URL).String
        = go "http://h?k=v" ∧
      ((Client.mk offline { Scheme := go "http", Host := go "h", RawQuery := go "k=v" }
          userAgent).ListGrandExchangeItems (go "rs3") (go "a") 1 1).requests =
        [go "http://h/m=itemdb_rs/api/catalogue/items.json?k=v?alpha=a&category=1&page=1"]) ∧
    (({ Scheme := go "http", Host := go "h", Fragment := go "f" } : URL).String
        = go "http://h#f" ∧
      ((Client.mk offline { Scheme := go "http", Host := go "h", Fragment := go "f" }
          userAgent).ListGrandExchangeItems (go "rs3") (go "a") 1 1).requests =
        [go "http://h/m=itemdb_rs/api/catalogue/items.json#f?alpha=a&category=1&page=1"]) ∧
    (({ Scheme := go "mailto", Opaque := go "x" } : URL).String = go "mailto:x" ∧
      ((Client.mk offline { Scheme := go "mailto", Opaque := go "x" }
          userAgent).ListGrandExchangeItems (go "rs3") (go "a") 1 1).requests =
        [go "mailto:x?alpha=a&category=1&page=1"]) ∧
    (({ Scheme := go "http" } : URL).String = go "http:" ∧
      ((Client.mk offline { Scheme := go "http" }
          userAgent).ListGrandExchangeItems (go "rs3") (go "a") 1 1).requests =
        [go "http://m=itemdb_rs/api/catalogue/items.json?alpha=a&category=1&page=1"]) := by
  decide

/-- C9 (amended): for every input that passes validation and every client whose
base URL has a host or a rooted path (an escaped path that starts with a slash)
and neither an opaque part nor a fragment, the URL passed to the transport ends
as follows.  With gameType "osrs": the path segment
"/m=itemdb_oldschool", the path "/api/catalogue/items.json", the query of the
base URL if it has one, and "?alpha={itemAlpha}&category=1&page={page}" - the
category is 1 whatever itemCategory is.  With gameType "rs3": the path segment
"/m=itemdb_rs", the same path and base query, and
"?alpha={itemAlpha}&category={itemCategory}&page={page}" with the decimal form
of itemCategory. -/
theorem variant_segment_and_category (c : Client) (b : UInt8) (itemCategory page : Int)
    (hb : (97 ≤ b.toNat ∧ b.toNat ≤ 122) ∨ b.toNat = 35) (hp : 1 ≤ page)
    (hopq : c.BaseURL.Opaque = []) (hfragment : c.BaseURL.Fragment = [])
    (hbase : c.BaseURL.Host ≠ [] ∨ c.BaseURL.EscapedPath.head? = some 47) :
    (∃ pre : GoString,
      (c.ListGrandExchangeItems (go "osrs") [b] itemCategory page).requests =
        [pre ++ go "/m=itemdb_oldschool" ++ go "/api/catalogue/items.json"
          ++ (if c.BaseURL.ForceQuery || c.BaseURL.RawQuery != []
              then go "?" ++ c.BaseURL.RawQuery else [])
          ++ go "?alpha=" ++ QueryEscape [b] ++ go "&category=" ++ go "1"
          ++ go "&page=" ++ FormatInt page]) ∧
    (∃ pre : GoString,
      (c.ListGrandExchangeItems (go "rs3") [b] itemCategory page).requests =
        [pre ++ go "/m=itemdb_rs" ++ go "/api/catalogue/items.json"
          ++ (if c.BaseURL.ForceQuery || c.BaseURL.RawQuery != []
              then go "?" ++ c.BaseURL.RawQuery else [])
          ++ go "?alpha=" ++ QueryEscape [b] ++ go "&category=" ++ FormatInt itemCategory
          ++ go "&page=" ++ FormatInt page]) := by
  have k1 : go "/m=itemdb_" ++ go "oldschool" = 47 :: go "m=itemdb_oldschool" := by decide
  have k2 : go "/m=itemdb_" ++ go "rs" = 47 :: go "m=itemdb_rs" := by decide
  have k3 : FormatInt 1 = go "1" := by decide
  constructor
  · obtain ⟨pre, h⟩ := string_of_joined c.BaseURL (go "m=itemdb_oldschool") variant_facts.2.1
      variant_facts.2.2.1 variant_facts.2.2.2.1 variant_facts.2.2.2.2
      ⟨variant_relative.2.1, variant_relative.2.2.1⟩ hopq hfragment hbase
    refine ⟨pre, ?_⟩
    have e : (go "osrs" == go "rs3") = false := by decide
    rw [requests_of_valid c (go "osrs") b itemCategory page (Or.inr rfl) hb hp, encode_query,
      queryEscape_formatInt, queryEscape_formatInt]
    simp only [e, Bool.false_eq_true, if_false, k1, k3]
    rw [h]
    simp [go, EncodeRune]
  · obtain ⟨pre, h⟩ := string_of_joined c.BaseURL (go "m=itemdb_rs") variant_facts.1.1
      variant_facts.1.2.1 variant_facts.1.2.2.1 variant_facts.1.2.2.2
      ⟨variant_relative.1.1, variant_relative.1.2.1⟩ hopq hfragment hbase
    refine ⟨pre, ?_⟩
    have e : (go "rs3" == go "rs3") = true := by decide
    rw [requests_of_valid c (go "rs3") b itemCategory page (Or.inl rfl) hb hp, encode_query,
      queryEscape_formatInt, queryEscape_formatInt]
    simp only [e, if_true, k2]
    rw [h]
    simp [go, EncodeRune]

/-- The requests of the default client for "osrs", "#", 7, 3 and for "rs3",
"#", 7, 3: category 1 in the first, category 7 in the second. -/
theorem variant_segment_and_category_witness :
    ((97 ≤ (35 : UInt8).toNat ∧ (35 : UInt8).toNat ≤ 122) ∨ (35 : UInt8).toNat = 35) ∧
    (1 : Int) ≤ 3 ∧
    (NewClient offline none).BaseURL.Opaque = [] ∧
    (NewClient offline none).BaseURL.Fragment = [] ∧
    ((NewClient offline none).BaseURL.Host ≠ []
      ∨ (NewClient offline none).BaseURL.EscapedPath.head? = some 47) ∧
    ((∃ pre : GoString,
      ((NewClient offline none).ListGrandExchangeItems (go "osrs") [35] 7 3).requests =
        [pre ++ go "/m=itemdb_oldschool" ++ go "/api/catalogue/items.json"
          ++ (if (NewClient offline none).BaseURL.ForceQuery
                || (NewClient offline none).BaseURL.RawQuery != []
              then go "?" ++ (NewClient offline none).BaseURL.RawQuery else [])
          ++ go "?alpha=" ++ QueryEscape [35] ++ go "&category=" ++ go "1"
          ++ go "&page=" ++ FormatInt 3]) ∧
    (∃ pre : GoString,
      ((NewClient offline none).ListGrandExchangeItems (go "rs3") [35] 7 3).requests =
        [pre ++ go "/m=itemdb_rs" ++ go "/api/catalogue/items.json"
          ++ (if (NewClient offline none).BaseURL.ForceQuery
                || (NewClient offline none).BaseURL.RawQuery != []
              then go "?" ++ (NewClient offline none).BaseURL.RawQuery else [])
          ++ go "?alpha=" ++ QueryEscape [35] ++ go "&category=" ++ FormatInt 7
          ++ go "&page=" ++ FormatInt 3])) ∧
    ((NewClient offline none).ListGrandExchangeItems (go "osrs") [35] 7 3).requests =
      [go ("https://secure.runescape.com/m=itemdb_oldschool/api/catalogue/items.json"
        ++ "?alpha=%23&category=1&page=3")] ∧
    ((NewClient offline none).ListGrandExchangeItems (go "rs3") [35] 7 3).requests =
      [go ("https://secure.runescape.com/m=itemdb_rs/api/catalogue/items.json"
        ++ "?alpha=%23&category=7&page=3")] :=
  ⟨by decide, by decide, by decide, by decide, by decide,
    variant_segment_and_category (NewClient offline none) 35 7 3
      (by decide) (by decide) (by decide) (by decide) (by decide),
    by decide, by decide⟩

/-- C9, as stated, fails for a client whose base URL is opaque, has a fragment,
or has neither a host nor a path.  With the base URL "mailto:x" the URL
requested for "osrs" has no path segment at all; with "http://h#f" the
parameters follow the fragment and the URL has no query, so no category
parameter; with "http:" the text "m=itemdb_oldschool" stands in the place of
the host, not in the path. -/
theorem request_without_variant_segment :
    ((Client.mk offline { Scheme := go "mailto", Opaque := go "x" }
        userAgent).ListGrandExchangeItems (go "osrs") (go "a") 1 1).requests =
      [go "mailto:x?alpha=a&category=1&page=1"] ∧
    ((Client.mk offline { Scheme := go "http", Host := go "h", Fragment := go "f" }
        userAgent).ListGrandExchangeItems (go "osrs") (go "a") 1 1).requests =
      [go ("http://h/m=itemdb_oldschool/api/catalogue/items.json"
        ++ "#f?alpha=a&category=1&page=1")] ∧
    ((Client.mk offline { Scheme := go "http" }
        userAgent).ListGrandExchangeItems (go "osrs") (go "a") 1 1).requests =
      [go "http://m=itemdb_oldschool/api/catalogue/items.json?alpha=a&category=1&page=1"] := by
  decide

/-- C3 (amended): once the transport has answered the request, the call fails
with a nil response and the status text as error message whenever the status
code is not 200 - the other codes of the range 200-299 included - and when the
status code is 200 the body is read and decoded: the call returns the read
error, the decoding error or the decoded response. -/
theorem status_other_than_200_is_error (c : Client) (gameType itemAlpha : GoString)
    (itemCategory page : Int) (req : GoString) (resp : Response)
    (hreq : (c.ListGrandExchangeItems gameType itemAlpha itemCategory page).requests = [req])
    (hresp : c.client req = .ok resp) :
    (resp.StatusCode ≠ 200 →
      (c.ListGrandExchangeItems gameType itemAlpha itemCategory page).result
        = .fail (.errorString resp.Status)) ∧
    (resp.StatusCode = 200 →
      (c.ListGrandExchangeItems gameType itemAlpha itemCategory page).result =
        match resp.Body with
        | .error err => .fail err
        | .ok body =>
          match Unmarshal body with
          | .error err => .fail err
          | .ok response => .ok response) := by
  rw [result_of_response c gameType itemAlpha itemCategory page req resp hreq hresp]
  constructor
  · intro h
    have : (resp.StatusCode != 200) = true := by simpa using h
    rw [if_pos this]
  · intro h
    have : ¬ (resp.StatusCode != 200) = true := by simp [h]
    rw [if_neg this]

/-- The answer 500 Internal Server Error of the test. -/
theorem status_other_than_200_is_error_witness :
    ((NewClient (serving 500 "500 Internal Server Error" (.malformed "")) none).ListGrandExchangeItems
        (go "rs3") (go "a") 1 1).requests =
      [go ("https://secure.runescape.com/m=itemdb_rs/api/catalogue/items.json"
        ++ "?alpha=a&category=1&page=1")] ∧
    (NewClient (serving 500 "500 Internal Server Error" (.malformed "")) none).client
        (go ("https://secure.runescape.com/m=itemdb_rs/api/catalogue/items.json"
          ++ "?alpha=a&category=1&page=1"))
      = .ok ⟨500, go "500 Internal Server Error", .ok (.malformed "")⟩ ∧
    ((NewClient (serving 500 "500 Internal Server Error" (.malformed "")) none).ListGrandExchangeItems
        (go "rs3") (go "a") 1 1).result
      = .fail (.errorString (go "500 Internal Server Error")) :=
  ⟨by decide, rfl,
    (status_other_than_200_is_error
      (NewClient (serving 500 "500 Internal Server Error" (.malformed "")) none)
      (go "rs3") (go "a") 1 1
      (go ("https://secure.runescape.com/m=itemdb_rs/api/catalogue/items.json"
        ++ "?alpha=a&category=1&page=1"))
      ⟨500, go "500 Internal Server Error", .ok (.malformed "")⟩
      (by decide) rfl).1 (by decide)⟩

/-- C3, as stated, fails: the status code 204 is within 200-299, and the call
fails with the status text "204 No Content" although the body would decode. -/
theorem status_204_is_an_error :
    (200 : Int) ≤ 204 ∧ (204 : Int) ≤ 299 ∧
    ((NewClient (serving 204 "204 No Content" (.value (Marshal ⟨0, none⟩))) none).ListGrandExchangeItems
        (go "rs3") (go "a") 1 1).result
      = .fail (.errorString (go "204 No Content")) ∧
    ((NewClient (serving 200 "200 OK" (.value (Marshal ⟨0, none⟩))) none).ListGrandExchangeItems
        (go "rs3") (go "a") 1 1).result
      = .ok ⟨0, none⟩ := by
  decide

/-! ## TrendPrice.UnmarshalJSON -/

theorem keyMatches_fold (key name : String) (h : keyMatches key name = true) :
    key.data.map foldRune = name.data.map foldRune := by
  simp only [keyMatches, Bool.or_eq_true, beq_iff_eq] at h
  rcases h with h | h
  · rw [h]
  · exact h

theorem not_price_of_trend (key : String) (h : keyMatches key "trend" = true) :
    keyMatches key "price" = false := by
  rw [Bool.eq_false_iff]
  intro h'
  have := (keyMatches_fold key "trend" h).symm.trans (keyMatches_fold key "price" h')
  exact absurd this (by decide)

/-- The field `Trend` of `raw` after decoding: the members named `trend` stored
one after the other. -/
theorem decodeRaw_trend : ∀ (ms : JSONMembers) (raw : Raw) (saved : Option GoError),
    (decodeRawMembers ms (raw, saved)).1.Trend =
      (ms.valuesFor "trend").foldl (fun a x => (decodeString a x).1) raw.Trend
  | .nil, _, _ => rfl
  | .cons key v ms, raw, saved => by
    simp only [decodeRawMembers, JSONMembers.valuesFor]
    by_cases h : keyMatches key "trend" = true
    · simp only [h, if_true, List.foldl_cons]
      rw [decodeRaw_trend ms]
    · simp only [h, Bool.false_eq_true, if_false]
      split <;> rw [decodeRaw_trend ms]

/-- The field `Price` of `raw` after decoding: the members named `price` stored
one after the other. -/
theorem decodeRaw_price : ∀ (ms : JSONMembers) (raw : Raw) (saved : Option GoError),
    (decodeRawMembers ms (raw, saved)).1.Price =
      (ms.valuesFor "price").foldl (fun a x => (decodeInterface a x).1) raw.Price
  | .nil, _, _ => rfl
  | .cons key v ms, raw, saved => by
    simp only [decodeRawMembers, JSONMembers.valuesFor]
    by_cases h : keyMatches key "trend" = true
    · simp only [h, if_true, not_price_of_trend key h, Bool.false_eq_true, if_false]
      rw [decodeRaw_price ms]
    · simp only [h, Bool.false_eq_true, if_false]
      split
      · rw [decodeRaw_price ms]; rfl
      · rw [decodeRaw_price ms]

/-- No error is saved while decoding into `raw` when no member named `trend` or
`price` is refused. -/
theorem decodeRaw_no_error : ∀ (ms : JSONMembers) (raw : Raw),
    (∀ x ∈ ms.valuesFor "trend", ∀ a, (decodeString a x).2 = none) →
    (∀ x ∈ ms.valuesFor "price", ∀ a, (decodeInterface a x).2 = none) →
    (decodeRawMembers ms (raw, none)).2 = none
  | .nil, _, _, _ => rfl
  | .cons key v ms, raw, ht, hp => by
    simp only [decodeRawMembers]
    simp only [JSONMembers.valuesFor] at ht hp
    by_cases h : keyMatches key "trend" = true
    · simp only [h, if_true, not_price_of_trend key h, Bool.false_eq_true, if_false] at ht hp ⊢
      rw [ht v (List.mem_cons_self _ _)]
      exact decodeRaw_no_error ms _ (fun x hx => ht x (List.mem_cons_of_mem _ hx)) hp
    · simp only [h, Bool.false_eq_true, if_false] at ht ⊢
      by_cases h' : keyMatches key "price" = true
      · simp only [h', if_true] at hp ⊢
        rw [hp v (List.mem_cons_self _ _)]
        exact decodeRaw_no_error ms _ ht (fun x hx => hp x (List.mem_cons_of_mem _ hx))
      · simp only [h', Bool.false_eq_true, if_false] at hp ⊢
        exact decodeRaw_no_error ms _ ht hp

/-! ## Integers that `float64` represents exactly -/

theorem log2Fuel_spec : ∀ (fuel n : Nat), n ≤ fuel → 1 ≤ n →
    2 ^ log2Fuel fuel n ≤ n ∧ n < 2 ^ (log2Fuel fuel n + 1)
  | 0, n, h, h1 => by omega
  | fuel + 1, n, h, h1 => by
    simp only [log2Fuel]
    by_cases h2 : 2 ≤ n
    · simp only [h2, if_true]
      have ih := log2Fuel_spec fuel (n / 2) (by omega) (by omega)
      rw [pow_succ, pow_succ]
      constructor <;> omega
    · simp only [h2, if_false]
      constructor <;> omega

theorem ilog2_spec (n : Nat) (h : 1 ≤ n) : 2 ^ ilog2 n ≤ n ∧ n < 2 ^ (ilog2 n + 1) :=
  log2Fuel_spec n n (le_refl n) h

/-- The binade of a positive ratio: `2^r ≤ n / d < 2^(r+1)` for `r = ilog2Ratio n d`,
written without division. -/
theorem ilog2Ratio_spec (n d : Nat) (hn : 1 ≤ n) (hd : 1 ≤ d) :
    d * 2 ^ (ilog2Ratio n d).toNat ≤ n * 2 ^ (-ilog2Ratio n d).toNat ∧
    n * 2 ^ (-ilog2Ratio n d).toNat < 2 * (d * 2 ^ (ilog2Ratio n d).toNat) := by
  obtain ⟨ha1, ha2⟩ := ilog2_spec n hn
  obtain ⟨hb1, hb2⟩ := ilog2_spec d hd
  simp only [ilog2Ratio]
  generalize ilog2 n = a at ha1 ha2 ⊢
  generalize ilog2 d = b at hb1 hb2 ⊢
  rcases Nat.le_total b a with hab | hab
  · obtain ⟨c, rfl⟩ := Nat.exists_eq_add_of_le hab
    have hk : ((b + c : Nat) : Int) - (b : Int) = (c : Int) := by omega
    have hB : 1 ≤ 2 ^ b := Nat.one_le_two_pow
    rw [hk]
    rw [pow_succ, pow_add] at ha2
    rw [pow_add] at ha1
    rw [pow_succ] at hb2
    simp only [Int.toNat_ofNat, Int.toNat_neg_nat, pow_zero, mul_one]
    by_cases hc : d * 2 ^ c ≤ n
    · simp only [hc, if_true, Int.toNat_ofNat, Int.toNat_neg_nat, pow_zero, mul_one, true_and]
      nlinarith [Nat.mul_le_mul_right (2 ^ c) hb1]
    · simp only [hc, if_false]
      rcases Nat.eq_zero_or_pos c with rfl | hpos
      · have e1 : (((0 : Nat) : Int) - 1).toNat = 0 := by omega
        have e2 : (-(((0 : Nat) : Int) - 1)).toNat = 1 := by omega
        simp only [pow_zero, mul_one] at ha1 ha2 hc
        rw [e1, e2]
        constructor <;> omega
      · obtain ⟨c', rfl⟩ : ∃ c', c = c' + 1 := ⟨c - 1, by omega⟩
        have e1 : (((c' + 1 : Nat) : Int) - 1).toNat = c' := by omega
        have e2 : (-(((c' + 1 : Nat) : Int) - 1)).toNat = 0 := by omega
        have hC : 1 ≤ 2 ^ c' := Nat.one_le_two_pow
        rw [e1, e2]
        rw [pow_succ] at ha1 ha2 hc
        simp only [pow_zero, mul_one]
        constructor <;> nlinarith
  · obtain ⟨c, rfl⟩ := Nat.exists_eq_add_of_le hab
    have hA : 1 ≤ 2 ^ a := Nat.one_le_two_pow
    have hC : 1 ≤ 2 ^ c := Nat.one_le_two_pow
    rw [pow_succ, pow_add] at hb2
    rw [pow_add] at hb1
    rw [pow_succ] at ha2
    have e1 : ((a : Int) - ((a + c : Nat) : Int)).toNat = 0 := by omega
    have e2 : (-((a : Int) - ((a + c : Nat) : Int))).toNat = c := by omega
    rw [e1, e2]
    simp only [pow_zero, mul_one]
    by_cases hc : d ≤ n * 2 ^ c
    · simp only [hc, if_true, e1, e2, pow_zero, mul_one, true_and]
      nlinarith [Nat.mul_le_mul_right (2 ^ c) ha1]
    · simp only [hc, if_false]
      have e3 : ((a : Int) - ((a + c : Nat) : Int) - 1).toNat = 0 := by omega
      have e4 : (-((a : Int) - ((a + c : Nat) : Int) - 1)).toNat = c + 1 := by omega
      rw [e3, e4, pow_succ]
      simp only [pow_zero, mul_one]
      constructor <;> nlinarith [Nat.mul_le_mul_right (2 ^ c) ha1]

theorem roundHalfEven_exact (q d : Nat) (hd : 1 ≤ d) : roundHalfEven (q * d) d = q := by
  have h1 : q * d / d = q := Nat.mul_div_cancel q (by omega)
  have h2 : q * d % d = 0 := Nat.mul_mod_left q d
  simp only [roundHalfEven, h1, h2]
  rw [if_pos (by omega)]

/-- An integer that `float64` represents exactly - `m0 * 2^k` with `m0 < 2^53` -
and that is below `2^64`, given as a ratio, is rounded to itself. -/
theorem roundFloat64_exact (neg : Bool) (v d m0 k : Nat) (hd : 1 ≤ d) (hm0 : m0 < 2 ^ 53)
    (hv : v = m0 * 2 ^ k) (hb : v < 2 ^ 64) :
    ∃ f, roundFloat64 neg (v * d) d = some f ∧
      f.trunc = if neg then -(v : Int) else (v : Int) := by
  rcases Nat.eq_zero_or_pos v with h0 | hpos
  · rw [h0]
    refine ⟨⟨neg, 0, 0⟩, by simp [roundFloat64], ?_⟩
    cases neg <;> decide
  · have hn : 1 ≤ v * d := Nat.mul_pos hpos hd
    have hne : (v * d == 0) = false := by
      rw [beq_eq_false_iff_ne]; omega
    obtain ⟨s1, s2⟩ := ilog2Ratio_spec (v * d) d hn hd
    simp only [roundFloat64, hne, Bool.false_eq_true, if_false]
    generalize ilog2Ratio (v * d) d = r at s1 s2 ⊢
    have hr : 0 ≤ r := by
      by_contra hneg
      obtain ⟨j, hj⟩ : ∃ j : Nat, (-r).toNat = j + 1 := ⟨(-r).toNat - 1, by omega⟩
      have h0 : r.toNat = 0 := by omega
      have hJ : 1 ≤ 2 ^ j := Nat.one_le_two_pow
      rw [h0, hj, pow_succ] at s2
      simp only [pow_zero, mul_one] at s2
      have : d * 1 ≤ d * (v * 2 ^ j) := Nat.mul_le_mul_left d (Nat.mul_pos hpos hJ)
      nlinarith
    lift r to ℕ using hr with ρ
    simp only [Int.toNat_ofNat, Int.toNat_neg_nat, pow_zero, mul_one] at s1 s2
    have hlo : 2 ^ ρ ≤ v := by
      by_contra hcon
      have : d * (v + 1) ≤ d * 2 ^ ρ := Nat.mul_le_mul_left d (by omega)
      nlinarith
    have hhi : v < 2 * 2 ^ ρ := by
      by_contra hcon
      have : d * (2 * 2 ^ ρ) ≤ d * v := Nat.mul_le_mul_left d (by omega)
      nlinarith
    have hρ : ρ ≤ 63 := by
      by_contra hcon
      have : 2 ^ 64 ≤ 2 ^ ρ := Nat.pow_le_pow_right (by decide) (by omega)
      omega
    have hmax : max ((ρ : Int) - 52) (-1074) = (ρ : Int) - 52 := max_eq_left (by omega)
    rw [hmax]
    rcases Nat.lt_or_ge ρ 53 with hlt | hge
    · obtain ⟨j, hj⟩ : ∃ j : Nat, ρ + j = 52 := ⟨52 - ρ, by omega⟩
      have e1 : (-((ρ : Int) - 52)).toNat = j := by omega
      have e2 : ((ρ : Int) - 52).toNat = 0 := by omega
      have hpow : 2 ^ ρ * 2 ^ j = 2 ^ 52 := by rw [← pow_add, hj]
      have hm : roundHalfEven (v * d * 2 ^ j) (d * 2 ^ 0) = v * 2 ^ j := by
        have : v * d * 2 ^ j = v * 2 ^ j * d := by ring
        rw [this, pow_zero, mul_one]
        exact roundHalfEven_exact _ _ hd
      have hJ : 1 ≤ 2 ^ j := Nat.one_le_two_pow
      have hlt53 : v * 2 ^ j < 2 ^ 53 := by
        have : v * 2 ^ j < 2 * 2 ^ ρ * 2 ^ j := Nat.mul_lt_mul_of_pos_right hhi (by omega)
        have h53 : (2 : Nat) ^ 53 = 2 * 2 ^ 52 := by norm_num
        rw [h53, ← hpow]
        linarith
      have hne53 : (v * 2 ^ j == 2 ^ 53) = false := by
        rw [beq_eq_false_iff_ne]; omega
      rw [e1, e2, hm]
      simp only [hne53, Bool.false_eq_true, if_false]
      rw [if_neg (by omega)]
      refine ⟨_, rfl, ?_⟩
      simp only [Float64.trunc]
      by_cases h0 : (0 : Int) ≤ (ρ : Int) - 52
      · have hj0 : j = 0 := by omega
        subst hj0
        simp only [h0, if_true, e2, pow_zero, mul_one]
      · simp only [h0, if_false, e1]
        rw [Nat.mul_div_cancel v (by omega)]
    · obtain ⟨s, hs⟩ : ∃ s : Nat, ρ = 52 + s := ⟨ρ - 52, by omega⟩
      subst hs
      have e1 : (-(((52 + s : Nat) : Int) - 52)).toNat = 0 := by omega
      have e2 : (((52 + s : Nat) : Int) - 52).toNat = s := by omega
      have hS : 1 ≤ 2 ^ s := Nat.one_le_two_pow
      have h52 : (2 : Nat) ^ (52 + s) = 2 ^ 52 * 2 ^ s := pow_add 2 52 s
      have h53 : (2 : Nat) ^ 53 = 2 * 2 ^ 52 := by norm_num
      have hks : s ≤ k := by
        by_contra hcon
        obtain ⟨t, ht⟩ : ∃ t : Nat, s = k + 1 + t := ⟨s - (k + 1), by omega⟩
        have hT : 1 ≤ 2 ^ t := Nat.one_le_two_pow
        have hK : 1 ≤ 2 ^ k := Nat.one_le_two_pow
        have hst : (2 : Nat) ^ s = 2 * 2 ^ k * 2 ^ t := by
          rw [ht, pow_add, pow_succ]; ring
        have h1 : m0 * 2 ^ k < 2 ^ 53 * 2 ^ k := Nat.mul_lt_mul_of_pos_right hm0 (by omega)
        have h2 : 2 ^ 53 * 2 ^ k ≤ 2 ^ 52 * (2 * 2 ^ k * 2 ^ t) := by
          have : 2 ^ 52 * (2 * 2 ^ k * 2 ^ t) = 2 ^ 53 * 2 ^ k * 2 ^ t := by rw [h53]; ring
          rw [this]
          exact Nat.le_mul_of_pos_right _ (by omega)
        rw [h52, hst] at hlo
        omega
      obtain ⟨t, ht⟩ : ∃ t : Nat, k = s + t := ⟨k - s, by omega⟩
      have hvw : v = m0 * 2 ^ t * 2 ^ s := by rw [hv, ht, pow_add]; ring
      have hw : m0 * 2 ^ t < 2 ^ 53 := by
        have : m0 * 2 ^ t * 2 ^ s < 2 ^ 53 * 2 ^ s := by
          rw [← hvw, h53]
          rw [h52] at hhi
          linarith
        exact Nat.lt_of_mul_lt_mul_right this
      have hm : roundHalfEven (v * d * 2 ^ 0) (d * 2 ^ s) = m0 * 2 ^ t := by
        have : v * d * 2 ^ 0 = m0 * 2 ^ t * (d * 2 ^ s) := by rw [hvw]; ring
        rw [this]
        exact roundHalfEven_exact _ _ (Nat.mul_pos hd (by omega))
      have hne53 : (m0 * 2 ^ t == 2 ^ 53) = false := by
        rw [beq_eq_false_iff_ne]; omega
      rw [e1, e2, hm]
      simp only [hne53, Bool.false_eq_true, if_false]
      rw [if_neg (by omega)]
      refine ⟨_, rfl, ?_⟩
      have h0 : (0 : Int) ≤ ((52 + s : Nat) : Int) - 52 := by omega
      simp only [Float64.trunc, h0, if_true, e2, ← hvw]

/-- A number literal that denotes an integer which `float64` represents exactly
and which fits an `int` is parsed to a `float64` whose conversion to `int` is
that integer. -/
theorem parseFloat_integer (x : JNumber) (i : Int) (hx : x.denotesInt i)
    (hexact : isFloat64Integer i) (hlo : -2 ^ 63 ≤ i) (hhi : i < 2 ^ 63) :
    ∃ f, ParseFloat x = some f ∧ f.toInt = i := by
  simp only [JNumber.denotesInt] at hx
  simp only [ParseFloat]
  generalize (x.exp.getD 0 - (x.fracLen : Int)).toNat = a at hx ⊢
  generalize (-(x.exp.getD 0 - (x.fracLen : Int))).toNat = b at hx ⊢
  have hA : (0 : Int) < 10 ^ a := by positivity
  have hB : (0 : Int) < 10 ^ b := by positivity
  have hBn : 1 ≤ 10 ^ b := Nat.one_le_pow _ _ (by decide)
  have hv : i.natAbs < 2 ^ 64 := by omega
  have key : x.mant * 10 ^ a = i.natAbs * 10 ^ b ∧
      (if x.neg then -(i.natAbs : Int) else (i.natAbs : Int)) = i := by
    cases hneg : x.neg
    · simp only [hneg, Bool.false_eq_true, if_false] at hx ⊢
      have hi : 0 ≤ i := by
        by_contra hcon
        have h1 : i * 10 ^ b < 0 := mul_neg_of_neg_of_pos (by omega) hB
        have h2 : (0 : Int) ≤ (x.mant : Int) * 10 ^ a := by positivity
        omega
      have habs : (i.natAbs : Int) = i := Int.natAbs_of_nonneg hi
      refine ⟨?_, habs⟩
      have : ((x.mant * 10 ^ a : Nat) : Int) = ((i.natAbs * 10 ^ b : Nat) : Int) := by
        push_cast; rw [abs_of_nonneg hi]; exact hx
      exact_mod_cast this
    · simp only [hneg, if_true] at hx ⊢
      have hi : i ≤ 0 := by
        by_contra hcon
        have h1 : 0 < i * 10 ^ b := mul_pos (by omega) hB
        have h2 : (0 : Int) ≤ (x.mant : Int) * 10 ^ a := by positivity
        have h3 : -(x.mant : Int) * 10 ^ a = -((x.mant : Int) * 10 ^ a) := by ring
        omega
      have habs : (i.natAbs : Int) = -i := by omega
      refine ⟨?_, by omega⟩
      have : ((x.mant * 10 ^ a : Nat) : Int) = ((i.natAbs * 10 ^ b : Nat) : Int) := by
        push_cast; rw [abs_of_nonpos hi]; linarith
      exact_mod_cast this
  rw [key.1]
  obtain ⟨m0, k, hm0, hmk⟩ := hexact
  obtain ⟨f, hf, hfi⟩ := roundFloat64_exact x.neg i.natAbs (10 ^ b) m0 k hBn hm0 hmk hv
  refine ⟨f, hf, ?_⟩
  have ht : f.trunc = i := hfi.trans key.2
  simp only [Float64.toInt, ht]
  rw [if_pos ⟨hlo, hhi⟩]

/-- What `UnmarshalJSON` does on an object none of whose `trend` and `price`
members is refused by `json.Unmarshal`: the type switch on the decoded price. -/
theorem unmarshalJSON_obj (tp : TrendPrice) (ms : JSONMembers)
    (ht : ∀ x ∈ ms.valuesFor "trend", ∀ a, (decodeString a x).2 = none)
    (hp : ∀ x ∈ ms.valuesFor "price", ∀ a, (decodeInterface a x).2 = none) :
    tp.UnmarshalJSON (.obj ms) =
      match (ms.valuesFor "price").foldl (fun a x => (decodeInterface a x).1) GoAny.nil with
      | .string v =>
        (⟨(ms.valuesFor "trend").foldl (fun a x => (decodeString a x).1) [], v⟩, none)
      | .float64 v =>
        (⟨(ms.valuesFor "trend").foldl (fun a x => (decodeString a x).1) [], Itoa v.toInt⟩, none)
      | _ =>
        (⟨(ms.valuesFor "trend").foldl (fun a x => (decodeString a x).1) [], tp.Price⟩,
          some (.errorString (go "unexpected type for price"))) := by
  have h2 := decodeRaw_no_error ms ⟨[], .nil⟩ ht hp
  have h3 := decodeRaw_trend ms ⟨[], .nil⟩ none
  have h4 := decodeRaw_price ms ⟨[], .nil⟩ none
  simp only [TrendPrice.UnmarshalJSON, unmarshalRaw, h2]
  rw [h3, h4]

theorem decodeString_no_error (x : JSON) (h : x.kind = .string ∨ x.kind = .null) :
    ∀ a, (decodeString a x).2 = none := by
  intro a
  cases x <;> simp [JSON.kind] at h <;> rfl

theorem decodeInterface_no_error (x : JSON) (h : x.badNumber = false) :
    ∀ a, (decodeInterface a x).2 = none := by
  intro a
  cases x with
  | null => rfl
  | bool b => rfl
  | str s => rfl
  | num n =>
    simp only [JSON.badNumber] at h
    cases hf : ParseFloat n with
    | none => rw [hf] at h; cases h
    | some f => simp only [decodeInterface, hf]
  | arr xs =>
    simp only [JSON.badNumber] at h
    simp [decodeInterface, h]
  | obj ms =>
    simp only [JSON.badNumber] at h
    simp [decodeInterface, h]

/-- The field `Trend` after the members named `trend` have been stored one after
the other, when the last of them is a string. -/
theorem foldl_trend_last (l : List JSON) (a : GoString) (t : String)
    (h : l.getLast? = some (.str t)) :
    l.foldl (fun a x => (decodeString a x).1) a = go t := by
  rw [← List.dropLast_append_getLast? _ h, List.foldl_append]
  rfl

/-- Storing a `null` leaves the field `Trend` as it is: only the members that
are not `null` count. -/
theorem foldl_trend_filter (l : List JSON) :
    ∀ a : GoString, (∀ x ∈ l, x.kind = .string ∨ x.kind = .null) →
      l.foldl (fun a x => (decodeString a x).1) a
        = (l.filter fun x => x.kind != .null).foldl (fun a x => (decodeString a x).1) a := by
  induction l with
  | nil => intro a _; rfl
  | cons x l ih =>
    intro a h
    have hl : ∀ y ∈ l, y.kind = .string ∨ y.kind = .null :=
      fun y hy => h y (List.mem_cons_of_mem _ hy)
    rcases h x (List.mem_cons_self _ _) with hx | hx
    · have hk : (x.kind != .null) = true := by rw [hx]; decide
      simp only [List.filter_cons, hk, if_true, List.foldl_cons]
      exact ih _ hl
    · have hk : (x.kind != .null) = false := by rw [hx]; decide
      simp only [List.filter_cons, hk, Bool.false_eq_true, if_false, List.foldl_cons]
      rw [← ih _ hl]
      cases x <;> simp [JSON.kind] at hx
      rfl

/-- The field `Price` after the members named `price` have been stored one
after the other: the last of them is stored last. -/
theorem foldl_price_last (l : List JSON) (a : GoAny) (v : JSON) (h : l.getLast? = some v) :
    l.foldl (fun a x => (decodeInterface a x).1) a
      = (decodeInterface (l.dropLast.foldl (fun a x => (decodeInterface a x).1) a) v).1 := by
  conv_lhs => rw [← List.dropLast_append_getLast? _ h]
  rw [List.foldl_append]
  rfl

/-- C2 (amended): take a JSON object in which every member named "trend" is a
string or null, the last one that is not null being the string `t`, and in which
no member named "price" holds a number beyond the float64 range; the name of a
member is matched without regard to letter case, and of several members of one
name the last one supplies the value.  When the last "price" member is a string `s` the decoded
value is `{t, s}`.  When it is a number that denotes an integer `i`, however it
is written, and `i` is a value of float64 (`|i| = m * 2^k` with `m < 2^53`,
which every `|i| ≤ 2^53` is) and fits an `int` of 64 bits, decoding succeeds and
the decoded value is `{t, decimal form of i}`. -/
theorem price_string_or_exact_integer (tp : TrendPrice) (ms : JSONMembers) (t : String)
    (htrend : ∀ x ∈ ms.valuesFor "trend", x.kind = .string ∨ x.kind = .null)
    (hprice : ∀ x ∈ ms.valuesFor "price", x.badNumber = false)
    (ht : ((ms.valuesFor "trend").filter fun x => x.kind != .null).getLast? = some (.str t)) :
    (∀ s : String, (ms.valuesFor "price").getLast? = some (.str s) →
      tp.UnmarshalJSON (.obj ms) = (⟨go t, go s⟩, none)) ∧
    (∀ (x : JNumber) (i : Int), (ms.valuesFor "price").getLast? = some (.num x) →
      x.denotesInt i → isFloat64Integer i → -2 ^ 63 ≤ i → i < 2 ^ 63 →
      tp.UnmarshalJSON (.obj ms) = (⟨go t, FormatInt i⟩, none)) := by
  have h := unmarshalJSON_obj tp ms (fun x hx => decodeString_no_error x (htrend x hx))
    (fun x hx => decodeInterface_no_error x (hprice x hx))
  rw [foldl_trend_filter _ _ htrend, foldl_trend_last _ _ t ht] at h
  constructor
  · intro s hs
    rw [h, foldl_price_last _ _ _ hs]
    rfl
  · intro x i hx hden hexact hlo hhi
    obtain ⟨f, hf, hfi⟩ := parseFloat_integer x i hden hexact hlo hhi
    rw [h, foldl_price_last _ _ _ hx]
    simp only [decodeInterface, hf, Itoa, hfi]

/-- An object with two members named "price" up to letter case: the last one,
the integer 9007199254740994 = 4503599627370497 * 2, is the price decoded. -/
theorem price_string_or_exact_integer_witness :
    (∀ x ∈ (JSONMembers.ofList [("trend", .str "neutral"), ("price", .str "100"),
        ("Price", .num (.ofInt 9007199254740994))]).valuesFor "trend",
      x.kind = .string ∨ x.kind = .null) ∧
    (∀ x ∈ (JSONMembers.ofList [("trend", .str "neutral"), ("price", .str "100"),
        ("Price", .num (.ofInt 9007199254740994))]).valuesFor "price",
      x.badNumber = false) ∧
    (((JSONMembers.ofList [("trend", .str "neutral"), ("price", .str "100"),
        ("Price", .num (.ofInt 9007199254740994))]).valuesFor "trend").filter
          fun x => x.kind != .null).getLast?
      = some (.str "neutral") ∧
    ((JSONMembers.ofList [("trend", .str "neutral"), ("price", .str "100"),
        ("Price", .num (.ofInt 9007199254740994))]).valuesFor "price").getLast?
      = some (.num (.ofInt 9007199254740994)) ∧
    (JNumber.ofInt 9007199254740994).denotesInt 9007199254740994 ∧
    isFloat64Integer 9007199254740994 ∧
    (-2 ^ 63 : Int) ≤ 9007199254740994 ∧ (9007199254740994 : Int) < 2 ^ 63 ∧
    TrendPrice.zero.UnmarshalJSON (.obj (.ofList [("trend", .str "neutral"),
        ("price", .str "100"), ("Price", .num (.ofInt 9007199254740994))]))
      = (⟨go "neutral", go "9007199254740994"⟩, none) :=
  have h1 : (JSONMembers.ofList [("trend", JSON.str "neutral"), ("price", .str "100"),
      ("Price", .num (.ofInt 9007199254740994))]).valuesFor "trend" = [.str "neutral"] := rfl
  have h2 : (JSONMembers.ofList [("trend", JSON.str "neutral"), ("price", .str "100"),
      ("Price", .num (.ofInt 9007199254740994))]).valuesFor "price"
      = [.str "100", .num (.ofInt 9007199254740994)] := rfl
  have a1 : ∀ x ∈ (JSONMembers.ofList [("trend", JSON.str "neutral"), ("price", .str "100"),
      ("Price", .num (.ofInt 9007199254740994))]).valuesFor "trend",
      x.kind = .string ∨ x.kind = .null := by rw [h1]; decide
  have a2 : ∀ x ∈ (JSONMembers.ofList [("trend", JSON.str "neutral"), ("price", .str "100"),
      ("Price", .num (.ofInt 9007199254740994))]).valuesFor "price",
      x.badNumber = false := by rw [h2]; decide
  have a3 : isFloat64Integer 9007199254740994 := ⟨4503599627370497, 1, by decide, by decide⟩
  ⟨a1, a2, by rw [h1]; rfl, by rw [h2]; rfl, by decide, a3, by decide, by decide,
    ((price_string_or_exact_integer TrendPrice.zero _ "neutral" a1 a2 (by rw [h1]; rfl)).2
      (.ofInt 9007199254740994) 9007199254740994 (by rw [h2]; rfl) (by decide) a3
      (by decide) (by decide)).trans (by decide)⟩

set_option maxRecDepth 100000 in
set_option exponentiation.threshold 2000 in
/-- C2, as stated, fails.  The price 100.5 is decoded to "100", the integer
9007199254740993 to "9007199254740992", the integer 9223372036854775808 not to
its decimal form, and with the number 1e400 nothing is decoded.  Of two members
named "price" up to letter case the last one is decoded, whatever the first one
is; and a "trend" member that is a number, or a "price" member beyond the
float64 range, makes the decoding fail even when a later member of the same name
is a string. -/
theorem price_number_not_its_decimal_form :
    TrendPrice.zero.UnmarshalJSON
        (trendPriceObject (.str "neutral") (.num ⟨false, 1005, 1, none⟩))
      = (⟨go "neutral", go "100"⟩, none) ∧
    TrendPrice.zero.UnmarshalJSON
        (trendPriceObject (.str "neutral") (.num (.ofInt 9007199254740993)))
      = (⟨go "neutral", go "9007199254740992"⟩, none) ∧
    TrendPrice.zero.UnmarshalJSON
        (trendPriceObject (.str "neutral") (.num (.ofInt 9223372036854775808)))
      ≠ (⟨go "neutral", go "9223372036854775808"⟩, none) ∧
    TrendPrice.zero.UnmarshalJSON
        (trendPriceObject (.str "neutral") (.num ⟨false, 1, 0, some 400⟩))
      = (TrendPrice.zero, some (.unmarshalType .number)) ∧
    TrendPrice.zero.UnmarshalJSON (.obj (.ofList [("trend", .str "neutral"),
        ("price", .str "100"), ("Price", .num (.ofInt 7))]))
      = (⟨go "neutral", go "7"⟩, none) ∧
    TrendPrice.zero.UnmarshalJSON (.obj (.ofList [("trend", .num (.ofInt 5)),
        ("trend", .str "up"), ("price", .str "1")]))
      = (TrendPrice.zero, some (.unmarshalType .number)) ∧
    TrendPrice.zero.UnmarshalJSON (.obj (.ofList [("trend", .str "up"),
        ("price", .num ⟨false, 1, 0, some 400⟩), ("price", .str "5")]))
      = (TrendPrice.zero, some (.unmarshalType .number)) := by
  refine ⟨by decide, by decide, by decide, by decide, by decide, by decide, by decide⟩

/-- C6 (amended): take a JSON object in which every member named "trend" is a
string or null and in which no member named "price" holds a number beyond the
float64 range; the name of a member is matched without regard to letter case,
and of several members of one name the last one supplies the value.  When the
last "price" member is an array, an object, a boolean or null, `UnmarshalJSON`
fails with the error "unexpected type for price". -/
theorem price_of_other_kind_rejected (tp : TrendPrice) (ms : JSONMembers) (v : JSON)
    (htrend : ∀ x ∈ ms.valuesFor "trend", x.kind = .string ∨ x.kind = .null)
    (hprice : ∀ x ∈ ms.valuesFor "price", x.badNumber = false)
    (hv : (ms.valuesFor "price").getLast? = some v)
    (hk : v.kind = .array ∨ v.kind = .object ∨ v.kind = .bool ∨ v.kind = .null) :
    (tp.UnmarshalJSON (.obj ms)).2 = some (.errorString (go "unexpected type for price")) := by
  rw [unmarshalJSON_obj tp ms (fun x hx => decodeString_no_error x (htrend x hx))
    (fun x hx => decodeInterface_no_error x (hprice x hx)), foldl_price_last _ _ _ hv]
  cases v <;> simp [JSON.kind] at hk <;> rfl

/-- An object with two members named "price" up to letter case, a string and
then the array [100] of the test: the array is the price, and is refused. -/
theorem price_of_other_kind_rejected_witness :
    (∀ x ∈ (JSONMembers.ofList [("trend", .str "up"), ("PRICE", .str "5"),
        ("price", .arr (.ofList [.num (.ofInt 100)]))]).valuesFor "trend",
      x.kind = .string ∨ x.kind = .null) ∧
    (∀ x ∈ (JSONMembers.ofList [("trend", .str "up"), ("PRICE", .str "5"),
        ("price", .arr (.ofList [.num (.ofInt 100)]))]).valuesFor "price",
      x.badNumber = false) ∧
    ((JSONMembers.ofList [("trend", .str "up"), ("PRICE", .str "5"),
        ("price", .arr (.ofList [.num (.ofInt 100)]))]).valuesFor "price").getLast?
      = some (.arr (.ofList [.num (.ofInt 100)])) ∧
    ((JSON.arr (.ofList [.num (.ofInt 100)])).kind = .array
      ∨ (JSON.arr (.ofList [.num (.ofInt 100)])).kind = .object
      ∨ (JSON.arr (.ofList [.num (.ofInt 100)])).kind = .bool
      ∨ (JSON.arr (.ofList [.num (.ofInt 100)])).kind = .null) ∧
    (TrendPrice.zero.UnmarshalJSON (.obj (.ofList [("trend", .str "up"), ("PRICE", .str "5"),
        ("price", .arr (.ofList [.num (.ofInt 100)]))]))).2
      = some (.errorString (go "unexpected type for price")) :=
  have h1 : (JSONMembers.ofList [("trend", JSON.str "up"), ("PRICE", .str "5"),
      ("price", .arr (.ofList [.num (.ofInt 100)]))]).valuesFor "trend" = [.str "up"] := rfl
  have h2 : (JSONMembers.ofList [("trend", JSON.str "up"), ("PRICE", .str "5"),
      ("price", .arr (.ofList [.num (.ofInt 100)]))]).valuesFor "price"
      = [.str "5", .arr (.ofList [.num (.ofInt 100)])] := rfl
  have a1 : ∀ x ∈ (JSONMembers.ofList [("trend", JSON.str "up"), ("PRICE", .str "5"),
      ("price", .arr (.ofList [.num (.ofInt 100)]))]).valuesFor "trend",
      x.kind = .string ∨ x.kind = .null := by rw [h1]; decide
  have a2 : ∀ x ∈ (JSONMembers.ofList [("trend", JSON.str "up"), ("PRICE", .str "5"),
      ("price", .arr (.ofList [.num (.ofInt 100)]))]).valuesFor "price",
      x.badNumber = false := by rw [h2]; decide
  ⟨a1, a2, by rw [h2]; rfl, Or.inl rfl,
    price_of_other_kind_rejected TrendPrice.zero _ (.arr (.ofList [.num (.ofInt 100)])) a1 a2
      (by rw [h2]; rfl) (Or.inl rfl)⟩

set_option maxRecDepth 100000 in
set_option exponentiation.threshold 2000 in
/-- C6, as stated, fails.  With a "trend" that is not a string, or with a number
beyond the float64 range inside the price array, `UnmarshalJSON` returns the
type error of `json.Unmarshal`, not "unexpected type for price".  And when the
member "price" is an array but a later member "PRICE" is a string, the string is
the price and the decoding succeeds. -/
theorem price_array_with_other_error :
    (TrendPrice.zero.UnmarshalJSON
        (trendPriceObject (.num (.ofInt 5)) (.arr (.ofList [.num (.ofInt 100)])))).2
      = some (.unmarshalType .number) ∧
    (TrendPrice.zero.UnmarshalJSON
        (trendPriceObject (.str "up") (.arr (.ofList [.num ⟨false, 1, 0, some 400⟩])))).2
      = some (.unmarshalType .number) ∧
    some (GoError.unmarshalType .number)
      ≠ some (.errorString (go "unexpected type for price")) ∧
    TrendPrice.zero.UnmarshalJSON (.obj (.ofList [("trend", .str "up"),
        ("price", .arr (.ofList [.num (.ofInt 100)])), ("PRICE", .str "5")]))
      = (⟨go "up", go "5"⟩, none) := by
  refine ⟨by decide, by decide, by decide, by decide⟩
/-! ## UTF-8: decoding a well-formed string and encoding it again -/

theorem char_toNat_ofNat (n : Nat) (h : n < 0xd800 ∨ (0xdfff < n ∧ n < 0x110000)) :
    (Char.ofNat n).toNat = n := by
  have hv : n.isValidChar := h
  simp only [Char.ofNat, dif_pos hv]
  rfl

theorem encode_one (s0 : UInt8) (h0 : s0.toNat < 128) :
    EncodeRune (Char.ofNat s0.toNat) = [s0] := by
  have hv := char_toNat_ofNat s0.toNat (by omega)
  simp only [EncodeRune, hv]
  rw [if_pos (by omega), u8_eq_ofNat s0 _ rfl]

theorem encode_two (s0 s1 : UInt8) (h0 : 194 ≤ s0.toNat ∧ s0.toNat ≤ 223)
    (h1 : 128 ≤ s1.toNat ∧ s1.toNat ≤ 191) :
    EncodeRune (Char.ofNat (s0.toNat % 32 * 64 + s1.toNat % 64)) = [s0, s1] := by
  have hv := char_toNat_ofNat (s0.toNat % 32 * 64 + s1.toNat % 64) (by omega)
  simp only [EncodeRune, hv]
  rw [if_neg (by omega), if_pos (by omega), u8_eq_ofNat s0 _ (by omega),
    u8_eq_ofNat s1 _ (by omega)]

theorem encode_three (s0 s1 s2 : UInt8) (h0 : 224 ≤ s0.toNat ∧ s0.toNat ≤ 239)
    (h1 : 128 ≤ s1.toNat ∧ s1.toNat ≤ 191) (hlo : s0.toNat = 224 → 160 ≤ s1.toNat)
    (hhi : s0.toNat = 237 → s1.toNat ≤ 159) (h2 : 128 ≤ s2.toNat ∧ s2.toNat ≤ 191) :
    EncodeRune (Char.ofNat (s0.toNat % 16 * 4096 + s1.toNat % 64 * 64 + s2.toNat % 64))
      = [s0, s1, s2] := by
  have hv := char_toNat_ofNat (s0.toNat % 16 * 4096 + s1.toNat % 64 * 64 + s2.toNat % 64)
    (by omega)
  simp only [EncodeRune, hv]
  rw [if_neg (by omega), if_neg (by omega), if_pos (by omega), u8_eq_ofNat s0 _ (by omega),
    u8_eq_ofNat s1 _ (by omega), u8_eq_ofNat s2 _ (by omega)]

theorem encode_four (s0 s1 s2 s3 : UInt8) (h0 : 240 ≤ s0.toNat ∧ s0.toNat ≤ 244)
    (h1 : 128 ≤ s1.toNat ∧ s1.toNat ≤ 191) (hlo : s0.toNat = 240 → 144 ≤ s1.toNat)
    (hhi : s0.toNat = 244 → s1.toNat ≤ 143) (h2 : 128 ≤ s2.toNat ∧ s2.toNat ≤ 191)
    (h3 : 128 ≤ s3.toNat ∧ s3.toNat ≤ 191) :
    EncodeRune (Char.ofNat (s0.toNat % 8 * 262144 + s1.toNat % 64 * 4096
      + s2.toNat % 64 * 64 + s3.toNat % 64)) = [s0, s1, s2, s3] := by
  have hv := char_toNat_ofNat (s0.toNat % 8 * 262144 + s1.toNat % 64 * 4096
    + s2.toNat % 64 * 64 + s3.toNat % 64) (by omega)
  simp only [EncodeRune, hv]
  rw [if_neg (by omega), if_neg (by omega), if_neg (by omega), u8_eq_ofNat s0 _ (by omega),
    u8_eq_ofNat s1 _ (by omega), u8_eq_ofNat s2 _ (by omega), u8_eq_ofNat s3 _ (by omega)]

theorem width_le_two (s0 : Nat) (h : runeWidth s0 ≤ 2) : s0 < 224 := by
  unfold runeWidth at h
  split_ifs at h <;> omega

theorem width_le_three (s0 : Nat) (h : runeWidth s0 ≤ 3) : s0 < 240 := by
  unfold runeWidth at h
  split_ifs at h <;> omega

theorem width_gt_two (s0 : Nat) (h : ¬ runeWidth s0 ≤ 2) : 224 ≤ s0 := by
  unfold runeWidth at h
  split_ifs at h <;> omega

theorem width_gt_three (s0 : Nat) (h : ¬ runeWidth s0 ≤ 3) : 240 ≤ s0 := by
  unfold runeWidth at h
  split_ifs at h <;> omega

theorem accept_bounds (s0 s1 : Nat) (h : ¬ (s1 < acceptLo s0 ∨ acceptHi s0 < s1)) :
    (128 ≤ s1 ∧ s1 ≤ 191) ∧ (s0 = 224 → 160 ≤ s1) ∧ (s0 = 237 → s1 ≤ 159) ∧
    (s0 = 240 → 144 ≤ s1) ∧ (s0 = 244 → s1 ≤ 143) := by
  unfold acceptLo acceptHi at h
  split_ifs at h <;> omega

/-- A rune that `DecodeRune` reads from a well-formed encoding is encoded by
`EncodeRune` to the bytes it was read from. -/
theorem decodeRune_wellFormed (s : GoString) (hs : s ≠ [])
    (h : ¬ ((DecodeRune s).2 = 1 ∧ (DecodeRune s).1 = RuneError)) :
    EncodeRune (DecodeRune s).1 ++ s.drop (DecodeRune s).2 = s ∧ 1 ≤ (DecodeRune s).2 := by
  generalize hd : DecodeRune s = d at h ⊢
  simp only [DecodeRune] at hd
  split at hd
  · exact absurd rfl hs
  · rename_i b0 rest
    split at hd
    · rename_i h0
      subst hd
      exact ⟨by simp only [encode_one b0 h0, List.drop_succ_cons, List.drop_zero,
        List.singleton_append], le_refl 1⟩
    · rename_i h0
      split at hd
      · subst hd; exact absurd ⟨rfl, rfl⟩ h
      · rename_i hlead
        split at hd
        · subst hd; exact absurd ⟨rfl, rfl⟩ h
        · split at hd
          · subst hd; exact absurd ⟨rfl, rfl⟩ h
          · rename_i b1 rest1 hlen
            split at hd
            · subst hd; exact absurd ⟨rfl, rfl⟩ h
            · rename_i hacc
              obtain ⟨a1, a2, a3, a4, a5⟩ := accept_bounds _ _ hacc
              split at hd
              · rename_i hw
                subst hd
                have hw' := width_le_two _ hw
                exact ⟨by simp only [encode_two b0 b1 (by omega) a1, List.drop_succ_cons,
                  List.drop_zero, List.cons_append, List.nil_append], by simp⟩
              · rename_i hw2
                have hw2' := width_gt_two _ hw2
                split at hd
                · subst hd; exact absurd ⟨rfl, rfl⟩ h
                · rename_i b2 rest2
                  split at hd
                  · subst hd; exact absurd ⟨rfl, rfl⟩ h
                  · rename_i hc2
                    split at hd
                    · rename_i hw3
                      subst hd
                      have hw3' := width_le_three _ hw3
                      exact ⟨by simp only [encode_three b0 b1 b2 (by omega) a1 a2 a3 (by omega),
                        List.drop_succ_cons, List.drop_zero, List.cons_append,
                        List.nil_append], by simp⟩
                    · rename_i hw3
                      have hw3' := width_gt_three _ hw3
                      split at hd
                      · subst hd; exact absurd ⟨rfl, rfl⟩ h
                      · rename_i b3 rest3
                        split at hd
                        · subst hd; exact absurd ⟨rfl, rfl⟩ h
                        · rename_i hc3
                          subst hd
                          exact ⟨by simp only [encode_four b0 b1 b2 b3 (by omega) a1 a4 a5
                            (by omega) (by omega), List.drop_succ_cons, List.drop_zero,
                            List.cons_append, List.nil_append], by simp⟩

/-! ## Round trip of a response through JSON -/

theorem runes_encode_of_valid : ∀ (fuel : Nat) (s : GoString), validFuel fuel s = true →
    (runesFuel fuel s).flatMap EncodeRune = s
  | 0, s, h => by
    simp only [validFuel, beq_iff_eq] at h
    subst h; rfl
  | fuel + 1, [], _ => rfl
  | fuel + 1, b :: s, h => by
    simp only [validFuel] at h
    split at h
    · exact absurd h (by simp)
    · rename_i hc
      have hc' : ¬ ((DecodeRune (b :: s)).2 = 1 ∧ (DecodeRune (b :: s)).1 = RuneError) := by
        intro hh
        apply hc
        simp [hh.1, hh.2]
      obtain ⟨h1, _⟩ := decodeRune_wellFormed (b :: s) (by simp) hc'
      simp only [runesFuel, List.flatMap_cons]
      rw [runes_encode_of_valid fuel _ h]
      exact h1

/-- A valid UTF-8 string is what the JSON decoder stores for the JSON string
the encoder writes for it. -/
theorem go_runes_of_valid (s : GoString) (h : ValidString s = true) :
    go (String.mk (runes s)) = s :=
  runes_encode_of_valid s.length s h

theorem decodeString_marshal (old s : GoString) (h : ValidString s = true) :
    decodeString old (marshalString s) = (s, none) := by
  simp only [marshalString, decodeString, go_runes_of_valid s h]

theorem parseInt_ofInt (i : Int) (h : isInt64 i = true) : ParseInt (.ofInt i) = some i := by
  simp only [isInt64, decide_eq_true_eq] at h
  simp only [ParseInt, JNumber.ofInt, beq_self_eq_true, Bool.and_self, if_true]
  by_cases hn : i < 0
  · have e : (-(i.natAbs : Int)) = i := by omega
    simp only [hn, decide_True, if_true, e]
    rw [if_pos h]
  · have e : ((i.natAbs : Int)) = i := by omega
    simp only [hn, decide_False, Bool.false_eq_true, if_false, e]
    rw [if_pos h]

theorem decodeInt_ofInt (old i : Int) (h : isInt64 i = true) :
    decodeInt old (.num (.ofInt i)) = (i, none) := by
  simp only [decodeInt, parseInt_ofInt i h]

theorem saveError_none (saved : Option GoError) : saveError saved none = saved := by
  cases saved <;> rfl

theorem unmarshalJSON_marshal (old tp : TrendPrice) (h : tp.wellFormed = true) :
    old.UnmarshalJSON tp.marshal = (tp, none) := by
  simp only [TrendPrice.wellFormed, Bool.and_eq_true] at h
  have hT : (JSONMembers.ofList [("trend", marshalString tp.Trend),
      ("price", marshalString tp.Price)]).valuesFor "trend" = [marshalString tp.Trend] := rfl
  have hP : (JSONMembers.ofList [("trend", marshalString tp.Trend),
      ("price", marshalString tp.Price)]).valuesFor "price" = [marshalString tp.Price] := rfl
  rw [TrendPrice.marshal, unmarshalJSON_obj old _
    (by intro x hx a; rw [hT, List.mem_singleton] at hx; subst hx; rfl)
    (by intro x hx a; rw [hP, List.mem_singleton] at hx; subst hx; rfl), hT, hP]
  simp only [List.foldl_cons, List.foldl_nil, decodeString_marshal _ _ h.1]
  simp only [marshalString, decodeInterface, go_runes_of_valid _ h.2]

theorem decodeItem_step_icon (v : JSON) (ms : JSONMembers) (it : Item)
    (saved : Option GoError) :
    decodeItemMembers (.cons "icon" v ms) (it, saved) =
      decodeItemMembers ms ({ it with Icon := (decodeString it.Icon v).1 },
        saveError saved (decodeString it.Icon v).2) := rfl

theorem decodeItem_step_icon_large (v : JSON) (ms : JSONMembers) (it : Item)
    (saved : Option GoError) :
    decodeItemMembers (.cons "icon_large" v ms) (it, saved) =
      decodeItemMembers ms ({ it with Icon_large := (decodeString it.Icon_large v).1 },
        saveError saved (decodeString it.Icon_large v).2) := rfl

theorem decodeItem_step_id (v : JSON) (ms : JSONMembers) (it : Item)
    (saved : Option GoError) :
    decodeItemMembers (.cons "id" v ms) (it, saved) =
      decodeItemMembers ms ({ it with Id := (decodeInt it.Id v).1 },
        saveError saved (decodeInt it.Id v).2) := rfl

theorem decodeItem_step_type (v : JSON) (ms : JSONMembers) (it : Item)
    (saved : Option GoError) :
    decodeItemMembers (.cons "type" v ms) (it, saved) =
      decodeItemMembers ms ({ it with TypeItem := (decodeString it.TypeItem v).1 },
        saveError saved (decodeString it.TypeItem v).2) := rfl

theorem decodeItem_step_typeIcon (v : JSON) (ms : JSONMembers) (it : Item)
    (saved : Option GoError) :
    decodeItemMembers (.cons "typeIcon" v ms) (it, saved) =
      decodeItemMembers ms ({ it with TypeIcon := (decodeString it.TypeIcon v).1 },
        saveError saved (decodeString it.TypeIcon v).2) := rfl

theorem decodeItem_step_name (v : JSON) (ms : JSONMembers) (it : Item)
    (saved : Option GoError) :
    decodeItemMembers (.cons "name" v ms) (it, saved) =
      decodeItemMembers ms ({ it with Name := (decodeString it.Name v).1 },
        saveError saved (decodeString it.Name v).2) := rfl

theorem decodeItem_step_description (v : JSON) (ms : JSONMembers) (it : Item)
    (saved : Option GoError) :
    decodeItemMembers (.cons "description" v ms) (it, saved) =
      decodeItemMembers ms ({ it with Description := (decodeString it.Description v).1 },
        saveError saved (decodeString it.Description v).2) := rfl

theorem decodeItem_step_current (v : JSON) (ms : JSONMembers) (it : Item)
    (saved : Option GoError) :
    decodeItemMembers (.cons "current" v ms) (it, saved) =
      match (it.Current.UnmarshalJSON v).2 with
      | some err => .error (saved.getD err)
      | none => decodeItemMembers ms ({ it with Current := (it.Current.UnmarshalJSON v).1 }, saved) := rfl

theorem decodeItem_step_today (v : JSON) (ms : JSONMembers) (it : Item)
    (saved : Option GoError) :
    decodeItemMembers (.cons "today" v ms) (it, saved) =
      match (it.Today.UnmarshalJSON v).2 with
      | some err => .error (saved.getD err)
      | none => decodeItemMembers ms ({ it with Today := (it.Today.UnmarshalJSON v).1 }, saved) := rfl

theorem decodeItem_step_members (v : JSON) (ms : JSONMembers) (it : Item)
    (saved : Option GoError) :
    decodeItemMembers (.cons "members" v ms) (it, saved) =
      decodeItemMembers ms ({ it with Members := (decodeString it.Members v).1 },
        saveError saved (decodeString it.Members v).2) := rfl

/-- An item written by the encoder is read back by the decoder, whatever the
item it is decoded into, and no error is saved. -/
theorem decodeItem_marshal (it old : Item) (saved : Option GoError) (h : it.wellFormed = true) :
    decodeItem (old, saved) it.marshal = .ok (it, saved) := by
  simp only [Item.wellFormed, Bool.and_eq_true] at h
  obtain ⟨⟨⟨⟨⟨⟨⟨⟨⟨h1, h2⟩, h3⟩, h4⟩, h5⟩, h6⟩, h7⟩, h8⟩, h9⟩, h10⟩ := h
  simp only [Item.marshal, decodeItem, JSONMembers.ofList]
  rw [decodeItem_step_icon, decodeItem_step_icon_large, decodeItem_step_id,
    decodeItem_step_type, decodeItem_step_typeIcon, decodeItem_step_name,
    decodeItem_step_description, decodeItem_step_current]
  simp only [decodeString_marshal _ _ h1, decodeString_marshal _ _ h2, decodeInt_ofInt _ _ h3,
    decodeString_marshal _ _ h4, decodeString_marshal _ _ h5, decodeString_marshal _ _ h6,
    decodeString_marshal _ _ h7, unmarshalJSON_marshal _ _ h8, saveError_none]
  rw [decodeItem_step_today]
  simp only [unmarshalJSON_marshal _ _ h9]
  rw [decodeItem_step_members]
  simp only [decodeString_marshal _ _ h10, saveError_none, decodeItemMembers]

theorem decodeItemList_marshal : ∀ (items old : List Item) (saved : Option GoError),
    items.all Item.wellFormed = true →
    decodeItemList (.ofList (items.map Item.marshal)) old saved = .ok (items, saved)
  | [], _, _, _ => rfl
  | it :: items, old, saved, h => by
    simp only [List.all_cons, Bool.and_eq_true] at h
    simp only [List.map_cons, JSONList.ofList, decodeItemList, decodeItem_marshal it _ saved h.1,
      decodeItemList_marshal items old.tail saved h.2]

theorem decodeGe_step_total (v : JSON) (ms : JSONMembers) (resp : GeResponse)
    (saved : Option GoError) :
    decodeGeMembers (.cons "total" v ms) (resp, saved) =
      decodeGeMembers ms ({ resp with Total := (decodeInt resp.Total v).1 },
        saveError saved (decodeInt resp.Total v).2) := rfl

theorem decodeGe_step_items (v : JSON) (ms : JSONMembers) (resp : GeResponse)
    (saved : Option GoError) :
    decodeGeMembers (.cons "items" v ms) (resp, saved) =
      match decodeItems resp.Items saved v with
      | .error err => .error err
      | .ok r => decodeGeMembers ms ({ resp with Items := r.1 }, r.2) := rfl

/-- C10 (amended): for every GeResponse whose strings are valid UTF-8 (its
integers being Go ints), encoding it with the default struct encoding and
decoding the result into a fresh GeResponse succeeds and gives the response
back, field for field, the nil or empty state of `Items` included. -/
theorem marshal_unmarshal_round_trip (r : GeResponse) (h : r.wellFormed = true) :
    Unmarshal (.value (Marshal r)) = .ok r := by
  obtain ⟨total, items⟩ := r
  simp only [GeResponse.wellFormed, Bool.and_eq_true] at h
  simp only [Marshal, Unmarshal, JSONMembers.ofList]
  rw [decodeGe_step_total, decodeGe_step_items]
  simp only [decodeInt_ofInt _ _ h.1, saveError_none, GeResponse.zero]
  cases items with
  | none => rfl
  | some items =>
    simp only [decodeItems, decodeItemList_marshal items _ none h.2, decodeGeMembers]

/-- The response the test server encodes, with a price added. -/
theorem marshal_unmarshal_round_trip_witness :
    (GeResponse.mk 2 (some [
        { Item.zero with Id := 1, Name := go "Item 1", Description := go "Description of item 1" },
        { Item.zero with Id := 2, Name := go "Item 2",
                         Current := ⟨go "neutral", go "100"⟩ }])).wellFormed = true ∧
    Unmarshal (.value (Marshal (GeResponse.mk 2 (some [
        { Item.zero with Id := 1, Name := go "Item 1", Description := go "Description of item 1" },
        { Item.zero with Id := 2, Name := go "Item 2",
                         Current := ⟨go "neutral", go "100"⟩ }])))) =
      .ok (GeResponse.mk 2 (some [
        { Item.zero with Id := 1, Name := go "Item 1", Description := go "Description of item 1" },
        { Item.zero with Id := 2, Name := go "Item 2",
                         Current := ⟨go "neutral", go "100"⟩ }])) :=
  ⟨by decide, marshal_unmarshal_round_trip _ (by decide)⟩

/-- C10, as stated, fails: a string field holding the single byte 0xFF, which is
not valid UTF-8, is encoded as U+FFFD and comes back as the three bytes
EF BF BD. -/
theorem invalid_utf8_not_round_tripped :
    Unmarshal (.value (Marshal ⟨0, some [{ Item.zero with Icon := [0xFF] }]⟩))
      = .ok ⟨0, some [{ Item.zero with Icon := [0xEF, 0xBF, 0xBD] }]⟩ ∧
    Unmarshal (.value (Marshal ⟨0, some [{ Item.zero with Icon := [0xFF] }]⟩))
      ≠ .ok ⟨0, some [{ Item.zero with Icon := [0xFF] }]⟩ := by
  decide

end Runescape
